import Mathlib

/-!
Shallow embedding of the transcript coverage validation engine of
`validation_utils.py` (functions `parse_timestamp` and
`validate_chunk_coverage`), together with theorems settling the claims
about it.

Modelling conventions:
* Python floats are modelled as exact rationals (ℚ); all arithmetic in the
  source is on small decimal values, where float and rational arithmetic
  agree for the properties below.
* Python strings are modelled as `String`, with the character-level
  operations (`strip`, `lower`, `re.sub(r'\s+', ' ', ...)`, `split`,
  `split(sep)`, `int(...)`, `float(...)`) implemented by structural
  recursion over `List Char`.
* Python `set` objects are modelled as `Finset`.
* Python's `list.sort(key=...)` (a stable sort by key) is modelled by a
  stable insertion sort by the same key.
* Exceptions (`ZeroDivisionError` at the timeline-coverage division,
  `ValueError` from `int()`/`float()` on unparseable timestamps) are
  modelled with `Except`: `.error` is a raised exception, `.ok` a normal
  return.
* The `detailed_report` field (a human-readable rendering of the other
  report fields, lines 232-280 of the source) and the `print` calls are
  not modelled: they do not affect any other field.
-/

namespace ValidationUtils

/-! ### Character-level string primitives -/

/-- Python `str.strip()` with no arguments: drop whitespace from both ends. -/
def stripWs (l : List Char) : List Char :=
  ((l.dropWhile Char.isWhitespace).reverse.dropWhile Char.isWhitespace).reverse

/-- Python `str.lower()` (ASCII case folding, which is all the source needs). -/
def lowerChars (l : List Char) : List Char :=
  l.map Char.toLower

/-- Python `re.sub(r'\s+', ' ', s)`: replace each maximal run of whitespace
by a single space. -/
def collapseWs : List Char → List Char
  | [] => []
  | [c] => if c.isWhitespace then [' '] else [c]
  | c1 :: c2 :: rest =>
    if c1.isWhitespace then
      if c2.isWhitespace then collapseWs (c2 :: rest)
      else ' ' :: collapseWs (c2 :: rest)
    else c1 :: collapseWs (c2 :: rest)

/-- Helper for `splitWs`: accumulates the current word (reversed). -/
def splitWsAux : List Char → List Char → List (List Char)
  | acc, [] => if acc.isEmpty then [] else [acc.reverse]
  | acc, c :: rest =>
    if c.isWhitespace then
      if acc.isEmpty then splitWsAux [] rest
      else acc.reverse :: splitWsAux [] rest
    else splitWsAux (c :: acc) rest

/-- Python `str.split()` with no arguments: split on whitespace runs,
dropping empty pieces. -/
def splitWs (l : List Char) : List (List Char) :=
  splitWsAux [] l

/-- Python `str.split(sep)` for a one-character separator: split at every
occurrence of `sep`, keeping empty pieces; the result is always nonempty. -/
def splitOnChar (sep : Char) : List Char → List (List Char)
  | [] => [[]]
  | c :: rest =>
    if c = sep then [] :: splitOnChar sep rest
    else
      match splitOnChar sep rest with
      | [] => [[c]]
      | g :: gs => (c :: g) :: gs

/-- Numeric value of a list of decimal digit characters. -/
def digitsVal (l : List Char) : Nat :=
  l.foldl (fun n c => n * 10 + (c.toNat - 48)) 0

/-- Python `int(s)` on a string: strip whitespace, optional sign, then
decimal digits; `none` models a raised `ValueError`. -/
def pyInt (l : List Char) : Option Int :=
  let t := stripWs l
  match t with
  | '-' :: ds =>
    if !ds.isEmpty && ds.all Char.isDigit then some (-(digitsVal ds : Int)) else none
  | '+' :: ds =>
    if !ds.isEmpty && ds.all Char.isDigit then some (digitsVal ds : Int) else none
  | ds =>
    if !ds.isEmpty && ds.all Char.isDigit then some (digitsVal ds : Int) else none

/-- The digit structure Python `float(s)` accepts in plain decimal
notation: a sign, an integer part and a fractional part (value and digit
count).  Exponent, `inf` and `nan` forms are not timestamp forms and are
outside the model.  `none` models a raised `ValueError`. -/
def pyFloatScan (l : List Char) : Option (Bool × Nat × Nat × Nat) :=
  let core : Bool → List Char → Option (Bool × Nat × Nat × Nat) := fun neg u =>
    match splitOnChar '.' u with
    | [a] =>
      if !a.isEmpty && a.all Char.isDigit then some (neg, digitsVal a, 0, 0) else none
    | [a, b] =>
      if (!a.isEmpty || !b.isEmpty) && a.all Char.isDigit && b.all Char.isDigit then
        some (neg, digitsVal a, digitsVal b, b.length)
      else none
    | _ => none
  match stripWs l with
  | '-' :: u => core true u
  | '+' :: u => core false u
  | u => core false u

/-! ### `parse_timestamp` (source lines 10-40)

The source interleaves integer scanning and float arithmetic; the
embedding separates the two data-flow stages of the same computation:
`scanTimestamp` performs all string work (branch selection on the colon
count and `int()` on the pieces, lines 16-38), and `tsValue` performs the
arithmetic (lines 27, 35, 38). -/

/-- The scanned components of a timestamp: which branch fired and the
integers extracted by `int()` (or the decimal components accepted by
`float()` in the fallback branch). -/
inductive ScannedTs where
  | hms (hours minutes seconds microseconds : Int) : ScannedTs
  | msOnly (minutes seconds microseconds : Int) : ScannedTs
  | bare (neg : Bool) (intPart fracVal fracLen : Nat) : ScannedTs
deriving DecidableEq, Repr

/-- String stage of `parse_timestamp` on the comma-normalized character
list: two colons → H:MM:SS.mmm branch, one colon → M:SS.mmm branch,
otherwise the `float()` fallback.  In each colon branch the pieces are
parsed with `int()`; a missing fractional part yields 0 microseconds. -/
def scanTimestamp (t : List Char) : Option ScannedTs :=
  if t.count ':' = 2 then
    let parts := splitOnChar ':' t
    do
      let hours ← pyInt (parts.getD 0 [])
      let minutes ← pyInt (parts.getD 1 [])
      let seconds_parts := splitOnChar '.' (parts.getD 2 [])
      let seconds ← pyInt (seconds_parts.getD 0 [])
      let microseconds ←
        if seconds_parts.length > 1 then pyInt (seconds_parts.getD 1 []) else some 0
      pure (ScannedTs.hms hours minutes seconds microseconds)
  else if t.count ':' = 1 then
    let parts := splitOnChar ':' t
    do
      let minutes ← pyInt (parts.getD 0 [])
      let seconds_parts := splitOnChar '.' (parts.getD 1 [])
      let seconds ← pyInt (seconds_parts.getD 0 [])
      let microseconds ←
        if seconds_parts.length > 1 then pyInt (seconds_parts.getD 1 []) else some 0
      pure (ScannedTs.msOnly minutes seconds microseconds)
  else
    (pyFloatScan t).map (fun p => ScannedTs.bare p.1 p.2.1 p.2.2.1 p.2.2.2)

/-- Arithmetic stage of `parse_timestamp`:
`hours * 3600 + minutes * 60 + seconds + microseconds / 1000.0` (line 27),
its minutes-form analogue (line 35), and the value of `float()` for the
fallback (line 38). -/
def tsValue : ScannedTs → ℚ
  | .hms hours minutes seconds microseconds =>
    (hours : ℚ) * 3600 + (minutes : ℚ) * 60 + (seconds : ℚ) + (microseconds : ℚ) / 1000
  | .msOnly minutes seconds microseconds =>
    (minutes : ℚ) * 60 + (seconds : ℚ) + (microseconds : ℚ) / 1000
  | .bare neg intPart fracVal fracLen =>
    (if neg then -1 else 1) * ((intPart : ℚ) + (fracVal : ℚ) / (10 : ℚ) ^ fracLen)

/-- `timestamp.replace(',', '.')` (line 16): for the one-character pattern
this is a character map. -/
def commaToPeriod (c : Char) : Char :=
  if c = ',' then '.' else c

/-- `parse_timestamp(timestamp)`: replace `,` by `.`, then dispatch on the
number of colons.  `none` models a raised `ValueError`. -/
def parse_timestamp (timestamp : String) : Option ℚ :=
  (scanTimestamp (timestamp.data.map commaToPeriod)).map tsValue

/-! ### Data model of `validate_chunk_coverage` (source lines 42-282) -/

/-- An input record (`original_subtitles` / `processed_chunks` entry):
a dict with `start`, `end` and `text` fields.  The `end` field is called
`stop` because `end` is a Lean keyword. -/
structure RawSub where
  start : String
  stop : String
  text : String
deriving DecidableEq, Repr

/-- A `subtitle_timeline` entry (lines 85-91): parsed bounds plus the
`covered` flag. -/
structure TimedSub where
  index : Nat
  start : ℚ
  stop : ℚ
  text : String
  covered : Bool
deriving DecidableEq, Repr

/-- A `chunk_timeline` entry (lines 97-102). -/
structure TimedChunk where
  index : Nat
  start : ℚ
  stop : ℚ
  text : String
deriving DecidableEq, Repr

/-- A gap record (lines 159-165). -/
structure TimelineGap where
  gap_start : ℚ
  gap_end : ℚ
  duration : ℚ
  after_chunk : Nat
  before_chunk : Nat
deriving DecidableEq, Repr

/-- An overlap record (lines 176-182). -/
structure ChunkOverlap where
  chunk1 : Nat
  chunk2 : Nat
  overlap_duration : ℚ
  overlap_start : ℚ
  overlap_end : ℚ
deriving DecidableEq, Repr

/-- A duplicate-content record (lines 197-201). -/
structure DuplicatePair where
  chunk1 : Nat
  chunk2 : Nat
  overlap_ratio : ℚ
deriving DecidableEq, Repr

/-- The validation report (lines 55-66), without the `detailed_report`
rendering (see the header comment). -/
structure ValidationReport where
  coverage_complete : Bool
  missing_subtitles : List TimedSub
  overlapping_chunks : List ChunkOverlap
  gaps_in_timeline : List TimelineGap
  duplicate_content : List DuplicatePair
  text_coverage_percentage : ℚ
  timeline_coverage_percentage : ℚ
  warnings : List String
  errors : List String
deriving DecidableEq, Repr

/-- The freshly initialized report of lines 55-66. -/
def emptyReport : ValidationReport :=
  { coverage_complete := false
    missing_subtitles := []
    overlapping_chunks := []
    gaps_in_timeline := []
    duplicate_content := []
    text_coverage_percentage := 0
    timeline_coverage_percentage := 0
    warnings := []
    errors := [] }

/-- The exceptions `validate_chunk_coverage` can raise: `ValueError` from
`int()`/`float()` inside `parse_timestamp`, and `ZeroDivisionError` from
the division on line 127. -/
inductive PyExn where
  | valueError
  | zeroDivisionError
deriving DecidableEq, Repr

/-- Lines 81-91: parse each subtitle's bounds (raising `ValueError` on the
first unparseable timestamp) and attach its index and a fresh `covered`
flag. -/
def buildSubTimeline : Nat → List RawSub → Except PyExn (List TimedSub)
  | _, [] => .ok []
  | i, s :: rest =>
    match parse_timestamp s.start, parse_timestamp s.stop with
    | some st, some en =>
      (buildSubTimeline (i + 1) rest).map
        (fun l => { index := i, start := st, stop := en, text := s.text, covered := false } :: l)
    | _, _ => .error .valueError

/-- Lines 93-102: the same for the chunks, without a `covered` flag. -/
def buildChunkTimeline : Nat → List RawSub → Except PyExn (List TimedChunk)
  | _, [] => .ok []
  | i, c :: rest =>
    match parse_timestamp c.start, parse_timestamp c.stop with
    | some st, some en =>
      (buildChunkTimeline (i + 1) rest).map
        (fun l => { index := i, start := st, stop := en, text := c.text } :: l)
    | _, _ => .error .valueError

/-- Stable insertion of `a` into a list sorted by `key`: `a` goes before
the first element with a key not smaller than its own, so elements with
equal keys keep their original relative order. -/
def insertByKey {α : Type} (key : α → ℚ) (a : α) : List α → List α
  | [] => [a]
  | b :: bs => if key a ≤ key b then a :: b :: bs else b :: insertByKey key a bs

/-- `list.sort(key=lambda x: x["start"])` (lines 105-106): Python's sort
is a stable sort by key, modelled by stable insertion sort. -/
def sortByKey {α : Type} (key : α → ℚ) : List α → List α
  | [] => []
  | a :: l => insertByKey key a (sortByKey key l)

/-- Lines 119-125 for one subtitle against one chunk: mark the subtitle
covered when it overlaps the chunk, and return the clamped overlap
duration this pair adds to `covered_duration`. -/
def overlapContribution (chunk_start chunk_end : ℚ) (s : TimedSub) : TimedSub × ℚ :=
  if s.start < chunk_end ∧ s.stop > chunk_start then
    let overlap_start := max s.start chunk_start
    let overlap_end := min s.stop chunk_end
    ({ s with covered := true },
      if overlap_end > overlap_start then overlap_end - overlap_start else 0)
  else (s, 0)

/-- The inner loop of lines 117-125: one chunk against every subtitle. -/
def coverWithChunk (chunk_start chunk_end : ℚ) : List TimedSub → List TimedSub × ℚ
  | [] => ([], 0)
  | s :: rest =>
    let p := overlapContribution chunk_start chunk_end s
    let q := coverWithChunk chunk_start chunk_end rest
    (p.1 :: q.1, p.2 + q.2)

/-- The outer loop of lines 112-125: every chunk in turn, threading the
marked subtitle list and accumulating `covered_duration`. -/
def coverAll : List TimedChunk → List TimedSub → List TimedSub × ℚ
  | [], subs => (subs, 0)
  | c :: cs, subs =>
    let p := coverWithChunk c.start c.stop subs
    let q := coverAll cs p.1
    (q.1, p.2 + q.2)

/-- `normalize_text` (lines 133-134) on the character list:
`text.strip().lower()` then `re.sub(r'\s+', ' ', ...)`. -/
def normalizeChars (l : List Char) : List Char :=
  collapseWs (lowerChars (stripWs l))

/-- `normalize_text(text)` (lines 133-134). -/
def normalize_text (text : String) : String :=
  String.mk (normalizeChars text.data)

/-- `' '.join(pieces)`. -/
def joinSpace : List (List Char) → List Char
  | [] => []
  | [t] => t
  | t :: rest => t ++ ' ' :: joinSpace rest

/-- `set(s.split())`: the set of whitespace-separated words of a string. -/
def wordSet (l : List Char) : Finset (List Char) :=
  (splitWs l).toFinset

/-- Lines 137-142: normalize every text, join with spaces, split into a
word set. -/
def combinedWords (texts : List String) : Finset (List Char) :=
  wordSet (joinSpace (texts.map (fun t => normalizeChars t.data)))

/-- Lines 144-146: word-set text coverage percentage; stays 0 when the
original word set is empty. -/
def textCoveragePct (origTexts chunkTexts : List String) : ℚ :=
  let original_words := combinedWords origTexts
  let chunk_words := combinedWords chunkTexts
  if original_words ≠ ∅ then
    ((chunk_words ∩ original_words).card : ℚ) / (original_words.card : ℚ) * 100
  else 0

/-- Lines 153-165: walk adjacent sorted chunk pairs; report a gap when the
next chunk starts more than 1 second after the current one ends. -/
def findGaps : Nat → List TimedChunk → List TimelineGap
  | _, [] => []
  | _, [_] => []
  | i, c1 :: c2 :: rest =>
    (if c2.start > c1.stop + 1 then
      [{ gap_start := c1.stop
         gap_end := c2.start
         duration := c2.start - c1.stop
         after_chunk := i
         before_chunk := i + 1 }]
     else [])
    ++ findGaps (i + 1) (c2 :: rest)

/-- Lines 169-182: walk adjacent sorted chunk pairs; report an overlap
when the next chunk starts before the current one ends. -/
def findOverlaps : Nat → List TimedChunk → List ChunkOverlap
  | _, [] => []
  | _, [_] => []
  | i, c1 :: c2 :: rest =>
    (if c2.start < c1.stop then
      [{ chunk1 := i
         chunk2 := i + 1
         overlap_duration := c1.stop - c2.start
         overlap_start := c2.start
         overlap_end := c1.stop }]
     else [])
    ++ findOverlaps (i + 1) (c2 :: rest)

/-- Inner loop of lines 189-201: compare chunk `i` (word set `w1`)
against every later chunk `j`; skip a pair when either word set is empty;
report it when the Jaccard ratio exceeds 0.5. -/
def dupInner (i : Nat) (w1 : Finset (List Char)) : Nat → List (List Char) → List DuplicatePair
  | _, [] => []
  | j, t2 :: rest =>
    let w2 := wordSet t2
    (if w1 ≠ ∅ ∧ w2 ≠ ∅ then
      let overlap_ratio := ((w1 ∩ w2).card : ℚ) / ((w1 ∪ w2).card : ℚ)
      if overlap_ratio > 1/2 then [{ chunk1 := i, chunk2 := j, overlap_ratio := overlap_ratio }]
      else []
     else [])
    ++ dupInner i w1 (j + 1) rest

/-- Lines 186-203: every unordered pair (i, j) with i < j of normalized
chunk texts. -/
def findDuplicates : Nat → List (List Char) → List DuplicatePair
  | _, [] => []
  | i, t1 :: rest => dupInner i (wordSet t1) (i + 1) rest ++ findDuplicates (i + 1) rest

/-- Python round-half-even of a rational, used to model `f"{x:.1f}"`. -/
def roundHalfEven (x : ℚ) : Int :=
  let f := ⌊x⌋
  let frac := x - (f : ℚ)
  if frac < 1/2 then f
  else if frac > 1/2 then f + 1
  else if f % 2 = 0 then f else f + 1

/-- `f"{x:.1f}"`: one decimal place, round half to even.  (On the small
decimal values of the source, exact-rational formatting agrees with float
formatting.) -/
def fmtOneDecimal (x : ℚ) : String :=
  let n := roundHalfEven (x * 10)
  let sign := if n < 0 then "-" else ""
  let m := n.natAbs
  sign ++ toString (m / 10) ++ "." ++ toString (m % 10)

/-- Line 207. -/
def missingMsg (n : Nat) : String :=
  "Missing " ++ toString n ++ " subtitles in chunks"

/-- Line 210. -/
def gapsMsg (n : Nat) : String :=
  "Found " ++ toString n ++ " timeline gaps"

/-- Line 213. -/
def overlapsMsg (n : Nat) : String :=
  "Found " ++ toString n ++ " overlapping chunks"

/-- Line 216. -/
def duplicatesMsg (n : Nat) : String :=
  "Found " ++ toString n ++ " duplicate content sections"

/-- Line 219. -/
def textLowMsg (pct : ℚ) : String :=
  "Text coverage is only " ++ fmtOneDecimal pct ++ "%"

/-- Line 222. -/
def timelineLowMsg (pct : ℚ) : String :=
  "Timeline coverage is only " ++ fmtOneDecimal pct ++ "%"

/-- The `errors` entries appended on lines 206-207 and 218-222, in source
order: missing subtitles, low text coverage, low timeline coverage.
`errors` depends only on the missing list and the two percentages. -/
def mkErrors (missing : List TimedSub) (textPct timelinePct : ℚ) : List String :=
  (if missing ≠ [] then [missingMsg missing.length] else [])
  ++ (if textPct < 95 then [textLowMsg textPct] else [])
  ++ (if timelinePct < 95 then [timelineLowMsg timelinePct] else [])

/-- The `warnings` entries appended on lines 209-216, in source order:
gaps, overlaps, duplicates.  `warnings` depends only on those three
lists. -/
def mkWarnings (gaps : List TimelineGap) (overlaps : List ChunkOverlap)
    (duplicates : List DuplicatePair) : List String :=
  (if gaps ≠ [] then [gapsMsg gaps.length] else [])
  ++ (if overlaps ≠ [] then [overlapsMsg overlaps.length] else [])
  ++ (if duplicates ≠ [] then [duplicatesMsg duplicates.length] else [])

/-- Lines 225-230: the verdict, a function of the missing list and the two
percentages alone (the `errors` equality test plugs in `mkErrors` of those
same three values). -/
def verdict (missing : List TimedSub) (textPct timelinePct : ℚ) : Bool :=
  decide (missing = [] ∧ textPct ≥ 95 ∧ timelinePct ≥ 95
    ∧ mkErrors missing textPct timelinePct = [])

/-- Placeholder subtitle for `headD`/`getLastD`; never used on the guarded
nonempty paths. -/
def defaultTimedSub : TimedSub :=
  { index := 0, start := 0, stop := 0, text := "", covered := false }

/-- Line 109 on the sorted subtitle timeline:
`subtitle_timeline[-1]["end"] - subtitle_timeline[0]["start"]`.  Note this
is the end of the subtitle that sorts LAST BY START, not the maximum end. -/
def totalSubtitleDuration (subTL : List TimedSub) : ℚ :=
  ((sortByKey (fun s => s.start) subTL).getLastD defaultTimedSub).stop
    - ((sortByKey (fun s => s.start) subTL).headD defaultTimedSub).start

/-- The `covered_duration` accumulated by the loop of lines 110-125 over
the two sorted timelines. -/
def coveredDuration (subTL : List TimedSub) (chTL : List TimedChunk) : ℚ :=
  (coverAll (sortByKey (fun c => c.start) chTL) (sortByKey (fun s => s.start) subTL)).2

/-- The sorted subtitle timeline after the loop of lines 110-125 has set
the `covered` flags. -/
def markedSubtitles (subTL : List TimedSub) (chTL : List TimedChunk) : List TimedSub :=
  (coverAll (sortByKey (fun c => c.start) chTL) (sortByKey (fun s => s.start) subTL)).1

/-- The report assembled on the non-raising path of lines 104-230: the
two percentages, the missing/gap/overlap/duplicate lists, the messages
and the verdict. -/
def assembledReport (original_subtitles processed_chunks : List RawSub)
    (subTL : List TimedSub) (chTL : List TimedChunk) : ValidationReport :=
  let chunk_timeline := sortByKey (fun c => c.start) chTL
  let timeline_coverage_percentage :=
    coveredDuration subTL chTL / totalSubtitleDuration subTL * 100
  let text_coverage_percentage :=
    textCoveragePct (original_subtitles.map (fun s => s.text))
      (processed_chunks.map (fun c => c.text))
  let missing_subtitles := (markedSubtitles subTL chTL).filter (fun s => !s.covered)
  let gaps := findGaps 0 chunk_timeline
  let overlaps := findOverlaps 0 chunk_timeline
  let duplicates := findDuplicates 0 (processed_chunks.map (fun c => normalizeChars c.text.data))
  { coverage_complete := verdict missing_subtitles text_coverage_percentage timeline_coverage_percentage
    missing_subtitles := missing_subtitles
    overlapping_chunks := overlaps
    gaps_in_timeline := gaps
    duplicate_content := duplicates
    text_coverage_percentage := text_coverage_percentage
    timeline_coverage_percentage := timeline_coverage_percentage
    warnings := mkWarnings gaps overlaps duplicates
    errors := mkErrors missing_subtitles text_coverage_percentage timeline_coverage_percentage }

/-- Lines 104-230 after both timelines parsed: raise `ZeroDivisionError`
at the line-127 division when the subtitle time span is zero, otherwise
return the assembled report. -/
def validateCore (original_subtitles processed_chunks : List RawSub)
    (subTL : List TimedSub) (chTL : List TimedChunk) : Except PyExn ValidationReport :=
  if totalSubtitleDuration subTL = 0 then .error .zeroDivisionError
  else .ok (assembledReport original_subtitles processed_chunks subTL chTL)

/-- `validate_chunk_coverage(original_subtitles, processed_chunks)`
(lines 42-282): empty-input guards (lines 68-75), then timestamp parsing
and the full analysis. -/
def validate_chunk_coverage (original_subtitles processed_chunks : List RawSub) :
    Except PyExn ValidationReport :=
  if original_subtitles.isEmpty then
    .ok { emptyReport with errors := ["No original subtitles provided"] }
  else if processed_chunks.isEmpty then
    .ok { emptyReport with errors := ["No processed chunks provided"] }
  else do
    let subTL ← buildSubTimeline 0 original_subtitles
    let chTL ← buildChunkTimeline 0 processed_chunks
    validateCore original_subtitles processed_chunks subTL chTL

/-! ### General helper lemmas -/

lemma parse_timestamp_of_scan (s : String) (v : ScannedTs)
    (h : scanTimestamp (s.data.map commaToPeriod) = some v) :
    parse_timestamp s = some (tsValue v) := by
  rw [parse_timestamp, h, Option.map_some']

lemma except_bind_ok {α β : Type} (x : Except PyExn α) (f : α → Except PyExn β) (b : β) :
    x.bind f = Except.ok b ↔ ∃ a, x = Except.ok a ∧ f a = Except.ok b := by
  cases x <;> simp [Except.bind]

lemma validate_chunk_coverage_nonempty (o p : List RawSub) (ho : o ≠ []) (hp : p ≠ []) :
    validate_chunk_coverage o p =
      (buildSubTimeline 0 o).bind fun subTL =>
        (buildChunkTimeline 0 p).bind fun chTL =>
          validateCore o p subTL chTL := by
  rw [validate_chunk_coverage]
  rw [if_neg (by simp [List.isEmpty_iff, ho]), if_neg (by simp [List.isEmpty_iff, hp])]
  rfl

lemma validateCore_ok_iff (o p : List RawSub) (subTL : List TimedSub)
    (chTL : List TimedChunk) (r : ValidationReport) :
    validateCore o p subTL chTL = .ok r ↔
      totalSubtitleDuration subTL ≠ 0 ∧ r = assembledReport o p subTL chTL := by
  rw [validateCore]
  by_cases h : totalSubtitleDuration subTL = 0 <;> simp [h, eq_comm]

lemma validate_ok_iff (o p : List RawSub) (r : ValidationReport)
    (ho : o ≠ []) (hp : p ≠ []) :
    validate_chunk_coverage o p = .ok r ↔
      ∃ subTL chTL, buildSubTimeline 0 o = .ok subTL ∧ buildChunkTimeline 0 p = .ok chTL ∧
        totalSubtitleDuration subTL ≠ 0 ∧ r = assembledReport o p subTL chTL := by
  rw [validate_chunk_coverage_nonempty o p ho hp]
  simp only [except_bind_ok, validateCore_ok_iff]
  constructor
  · rintro ⟨subTL, h1, chTL, h2, h3, h4⟩
    exact ⟨subTL, chTL, h1, h2, h3, h4⟩
  · rintro ⟨subTL, chTL, h1, h2, h3, h4⟩
    exact ⟨subTL, h1, chTL, h2, h3, h4⟩

/-- Frequently used concrete parses. -/
lemma parse_ts_zero : parse_timestamp "0" = some 0 := by
  rw [parse_timestamp_of_scan "0" (.bare false 0 0 0) (by decide)]
  norm_num [tsValue]

lemma parse_ts_ten : parse_timestamp "10" = some 10 := by
  rw [parse_timestamp_of_scan "10" (.bare false 10 0 0) (by decide)]
  norm_num [tsValue]

lemma parse_ts_one : parse_timestamp "1" = some 1 := by
  rw [parse_timestamp_of_scan "1" (.bare false 1 0 0) (by decide)]
  norm_num [tsValue]

lemma parse_ts_two : parse_timestamp "2" = some 2 := by
  rw [parse_timestamp_of_scan "2" (.bare false 2 0 0) (by decide)]
  norm_num [tsValue]

lemma parse_ts_hundred : parse_timestamp "100" = some 100 := by
  rw [parse_timestamp_of_scan "100" (.bare false 100 0 0) (by decide)]
  norm_num [tsValue]

lemma parse_ts_three : parse_timestamp "3" = some 3 := by
  rw [parse_timestamp_of_scan "3" (.bare false 3 0 0) (by decide)]
  norm_num [tsValue]

/-! ### Properties of the stable sort -/

lemma insertByKey_perm {α : Type} (key : α → ℚ) (a : α) (l : List α) :
    List.Perm (insertByKey key a l) (a :: l) := by
  induction l with
  | nil => rfl
  | cons b bs ih =>
    rw [insertByKey]
    by_cases h : key a ≤ key b
    · simp [h]
    · simp only [if_neg h]
      exact (ih.cons b).trans (List.Perm.swap a b bs)

lemma sortByKey_perm {α : Type} (key : α → ℚ) (l : List α) :
    List.Perm (sortByKey key l) l := by
  induction l with
  | nil => rfl
  | cons a bs ih =>
    exact (insertByKey_perm key a (sortByKey key bs)).trans (ih.cons a)

lemma insertByKey_pairwise {α : Type} (key : α → ℚ) (a : α) (l : List α)
    (h : l.Pairwise (fun x y => key x ≤ key y)) :
    (insertByKey key a l).Pairwise (fun x y => key x ≤ key y) := by
  induction l with
  | nil => simp [insertByKey]
  | cons b bs ih =>
    rw [insertByKey]
    rcases List.pairwise_cons.1 h with ⟨hb, hbs⟩
    by_cases hab : key a ≤ key b
    · rw [if_pos hab]
      refine List.pairwise_cons.2 ⟨?_, h⟩
      intro x hx
      rcases List.mem_cons.1 hx with hx | hx
      · subst hx
        exact hab
      · exact le_trans hab (hb x hx)
    · rw [if_neg hab]
      refine List.pairwise_cons.2 ⟨?_, ih hbs⟩
      intro x hx
      have hx2 := (insertByKey_perm key a bs).mem_iff.1 hx
      rcases List.mem_cons.1 hx2 with hx' | hx'
      · subst hx'
        exact le_of_lt (lt_of_not_le hab)
      · exact hb x hx'

lemma sortByKey_pairwise {α : Type} (key : α → ℚ) (l : List α) :
    (sortByKey key l).Pairwise (fun x y => key x ≤ key y) := by
  induction l with
  | nil => simp [sortByKey]
  | cons a bs ih => exact insertByKey_pairwise key a (sortByKey key bs) ih

lemma sortByKey_eq_self {α : Type} (key : α → ℚ) (l : List α)
    (h : l.Pairwise (fun x y => key x ≤ key y)) :
    sortByKey key l = l := by
  induction l with
  | nil => rfl
  | cons a bs ih =>
    rcases List.pairwise_cons.1 h with ⟨ha, hbs⟩
    rw [sortByKey, ih hbs]
    cases bs with
    | nil => rfl
    | cons b bs' => rw [insertByKey, if_pos (ha b (by simp))]

lemma sortByKey_headD_key_le {α : Type} (key : α → ℚ) (l : List α) (d : α) :
    ∀ a ∈ l, key ((sortByKey key l).headD d) ≤ key a := by
  intro a ha
  have hmem : a ∈ sortByKey key l := (sortByKey_perm key l).mem_iff.2 ha
  rcases hs : sortByKey key l with _ | ⟨h₀, t⟩
  · rw [hs] at hmem
    exact absurd hmem (by simp)
  · rw [hs] at hmem
    have hp := sortByKey_pairwise key l
    rw [hs, List.pairwise_cons] at hp
    rcases List.mem_cons.1 hmem with hmem | hmem
    · simp [hmem]
    · simpa using hp.1 a hmem

/-! ### Timestamp format lemmas -/

lemma digit_ne_of_ne (ch x : Char) (h : ch.isDigit = true) (hx : x.isDigit = false) :
    ch ≠ x := by
  intro he
  rw [he, hx] at h
  exact Bool.false_ne_true h

lemma digit_not_whitespace (ch : Char) (h : ch.isDigit = true) :
    ch.isWhitespace = false := by
  by_contra hw
  rw [Bool.not_eq_false] at hw
  simp only [Char.isWhitespace, Bool.or_eq_true, decide_eq_true_eq] at hw
  rcases hw with ((h1 | h1) | h1) | h1 <;> rw [h1] at h <;> exact absurd h (by decide)

lemma not_mem_of_all_digit (sep : Char) (a : List Char) (hd : ∀ ch ∈ a, ch.isDigit = true)
    (hsep : sep.isDigit = false) : sep ∉ a := by
  intro hm
  rw [hd sep hm] at hsep
  exact absurd hsep (by simp)

lemma dropWhile_not_ws (l : List Char) (h : ∀ ch ∈ l, ch.isWhitespace = false) :
    l.dropWhile Char.isWhitespace = l := by
  cases l with
  | nil => rfl
  | cons c rest =>
    rw [List.dropWhile_cons, if_neg]
    rw [h c (by simp)]
    exact Bool.false_ne_true

lemma stripWs_of_no_ws (l : List Char) (h : ∀ ch ∈ l, ch.isWhitespace = false) :
    stripWs l = l := by
  rw [stripWs, dropWhile_not_ws l h, dropWhile_not_ws, List.reverse_reverse]
  intro ch hch
  exact h ch (by simpa using hch)

lemma pyInt_digits (a : List Char) (hne : a ≠ []) (hd : ∀ ch ∈ a, ch.isDigit = true) :
    pyInt a = some (digitsVal a : Int) := by
  have hstrip : stripWs a = a :=
    stripWs_of_no_ws a (fun ch hch => digit_not_whitespace ch (hd ch hch))
  have hcond : (!a.isEmpty && a.all Char.isDigit) = true := by
    simp only [Bool.and_eq_true, Bool.not_eq_true', List.isEmpty_iff, List.all_eq_true]
    exact ⟨by simpa using hne, hd⟩
  rw [pyInt]
  simp only [hstrip]
  cases a with
  | nil => exact absurd rfl hne
  | cons c rest =>
    have hc : c.isDigit = true := hd c (by simp)
    have hcm : c ≠ '-' := digit_ne_of_ne c '-' hc (by decide)
    have hcp : c ≠ '+' := digit_ne_of_ne c '+' hc (by decide)
    rcases hcc : c with ⟨cv⟩
    rw [← hcc]
    split
    · rename_i ds heq
      exact absurd (List.head_eq_of_cons_eq heq.symm).symm hcm
    · rename_i ds heq
      exact absurd (List.head_eq_of_cons_eq heq.symm).symm hcp
    · rw [if_pos hcond]

lemma splitOnChar_no_sep (sep : Char) (a : List Char) (ha : sep ∉ a) :
    splitOnChar sep a = [a] := by
  induction a with
  | nil => rfl
  | cons c rest ih =>
    rw [splitOnChar, if_neg (by rintro rfl; exact ha (by simp))]
    rw [ih (fun hm => ha (by simp [hm]))]

lemma splitOnChar_append_sep (sep : Char) (a b : List Char) (ha : sep ∉ a) :
    splitOnChar sep (a ++ sep :: b) = a :: splitOnChar sep b := by
  induction a with
  | nil => simp [splitOnChar]
  | cons c rest ih =>
    rw [List.cons_append, splitOnChar, if_neg (by rintro rfl; exact ha (by simp))]
    rw [ih (fun hm => ha (by simp [hm]))]

lemma count_no_sep (sep : Char) (a : List Char) (ha : sep ∉ a) : a.count sep = 0 :=
  List.count_eq_zero.2 ha

lemma count_append_sep (sep : Char) (a b : List Char) (ha : sep ∉ a) :
    (a ++ sep :: b).count sep = b.count sep + 1 := by
  rw [List.count_append, count_no_sep sep a ha, List.count_cons_self]
  omega

lemma map_commaToPeriod_no_comma (l : List Char) (h : ',' ∉ l) :
    l.map commaToPeriod = l := by
  induction l with
  | nil => rfl
  | cons c rest ih =>
    rw [List.map_cons, ih (fun hm => h (by simp [hm]))]
    rw [commaToPeriod, if_neg (by rintro rfl; exact h (by simp))]

lemma pyFloatScan_int (c : List Char) (hne : c ≠ []) (hd : ∀ ch ∈ c, ch.isDigit = true) :
    pyFloatScan c = some (false, digitsVal c, 0, 0) := by
  have hstrip : stripWs c = c :=
    stripWs_of_no_ws c (fun ch hch => digit_not_whitespace ch (hd ch hch))
  have hdot : '.' ∉ c := not_mem_of_all_digit '.' c hd (by decide)
  have hcond : (!c.isEmpty && c.all Char.isDigit) = true := by
    simp only [Bool.and_eq_true, Bool.not_eq_true', List.isEmpty_iff, List.all_eq_true]
    exact ⟨by simpa using hne, hd⟩
  rw [pyFloatScan]
  simp only [hstrip]
  cases c with
  | nil => exact absurd rfl hne
  | cons ch rest =>
    have hc : ch.isDigit = true := hd ch (by simp)
    have hcm : ch ≠ '-' := digit_ne_of_ne ch '-' hc (by decide)
    have hcp : ch ≠ '+' := digit_ne_of_ne ch '+' hc (by decide)
    split
    · rename_i u heq
      exact absurd (List.head_eq_of_cons_eq heq.symm).symm hcm
    · rename_i u heq
      exact absurd (List.head_eq_of_cons_eq heq.symm).symm hcp
    · rw [splitOnChar_no_sep '.' (ch :: rest) hdot]
      simp only [hcond, if_true]

lemma pyFloatScan_frac (c d : List Char) (hcne : c ≠ [])
    (hcd : ∀ ch ∈ c, ch.isDigit = true) (hdd : ∀ ch ∈ d, ch.isDigit = true) :
    pyFloatScan (c ++ '.' :: d) = some (false, digitsVal c, digitsVal d, d.length) := by
  have hnw : ∀ ch ∈ c ++ '.' :: d, ch.isWhitespace = false := by
    intro ch hch
    rcases List.mem_append.1 hch with hch | hch
    · exact digit_not_whitespace ch (hcd ch hch)
    · rcases List.mem_cons.1 hch with hch | hch
      · rw [hch]; decide
      · exact digit_not_whitespace ch (hdd ch hch)
  have hstrip : stripWs (c ++ '.' :: d) = c ++ '.' :: d := stripWs_of_no_ws _ hnw
  have hdotc : '.' ∉ c := not_mem_of_all_digit '.' c hcd (by decide)
  have hdotd : '.' ∉ d := not_mem_of_all_digit '.' d hdd (by decide)
  have hcond : ((!c.isEmpty || !d.isEmpty) && c.all Char.isDigit && d.all Char.isDigit) = true := by
    simp only [Bool.and_eq_true, Bool.or_eq_true, Bool.not_eq_true', List.isEmpty_iff,
      List.all_eq_true]
    exact ⟨⟨Or.inl (by simpa using hcne), hcd⟩, hdd⟩
  rw [pyFloatScan]
  simp only [hstrip]
  cases c with
  | nil => exact absurd rfl hcne
  | cons ch rest =>
    have hc : ch.isDigit = true := hcd ch (by simp)
    have hcm : ch ≠ '-' := digit_ne_of_ne ch '-' hc (by decide)
    have hcp : ch ≠ '+' := digit_ne_of_ne ch '+' hc (by decide)
    rw [List.cons_append]
    split
    · rename_i u heq
      exact absurd (List.head_eq_of_cons_eq heq.symm).symm hcm
    · rename_i u heq
      exact absurd (List.head_eq_of_cons_eq heq.symm).symm hcp
    · rw [← List.cons_append, splitOnChar_append_sep '.' (ch :: rest) d hdotc,
        splitOnChar_no_sep '.' d hdotd]
      simp only [hcond, if_true]

lemma scanTimestamp_two_colon (a b c d : List Char)
    (hane : a ≠ []) (had : ∀ ch ∈ a, ch.isDigit = true)
    (hbne : b ≠ []) (hbd : ∀ ch ∈ b, ch.isDigit = true)
    (hcne : c ≠ []) (hcd : ∀ ch ∈ c, ch.isDigit = true)
    (hdne : d ≠ []) (hdd : ∀ ch ∈ d, ch.isDigit = true) :
    scanTimestamp (a ++ ':' :: (b ++ ':' :: (c ++ '.' :: d))) =
      some (.hms (digitsVal a) (digitsVal b) (digitsVal c) (digitsVal d)) := by
  have hca : ':' ∉ a := not_mem_of_all_digit ':' a had (by decide)
  have hcb : ':' ∉ b := not_mem_of_all_digit ':' b hbd (by decide)
  have hccd : ':' ∉ c ++ '.' :: d := by
    intro hm
    rcases List.mem_append.1 hm with hm | hm
    · exact not_mem_of_all_digit ':' c hcd (by decide) hm
    · rcases List.mem_cons.1 hm with hm | hm
      · exact absurd hm (by decide)
      · exact not_mem_of_all_digit ':' d hdd (by decide) hm
  have hdotc : '.' ∉ c := not_mem_of_all_digit '.' c hcd (by decide)
  have hdotd : '.' ∉ d := not_mem_of_all_digit '.' d hdd (by decide)
  have hcount : (a ++ ':' :: (b ++ ':' :: (c ++ '.' :: d))).count ':' = 2 := by
    rw [count_append_sep ':' a _ hca, count_append_sep ':' b _ hcb,
      count_no_sep ':' _ hccd]
  have hsplit : splitOnChar ':' (a ++ ':' :: (b ++ ':' :: (c ++ '.' :: d))) =
      [a, b, c ++ '.' :: d] := by
    rw [splitOnChar_append_sep ':' a _ hca, splitOnChar_append_sep ':' b _ hcb,
      splitOnChar_no_sep ':' _ hccd]
  rw [scanTimestamp, if_pos hcount]
  simp only [hsplit, List.getD_cons_zero, List.getD_cons_succ]
  rw [splitOnChar_append_sep '.' c d hdotc, splitOnChar_no_sep '.' d hdotd]
  simp only [List.getD_cons_zero, List.getD_cons_succ]
  rw [pyInt_digits a hane had, pyInt_digits b hbne hbd, pyInt_digits c hcne hcd,
    pyInt_digits d hdne hdd]
  rfl

lemma scanTimestamp_one_colon (b c d : List Char)
    (hbne : b ≠ []) (hbd : ∀ ch ∈ b, ch.isDigit = true)
    (hcne : c ≠ []) (hcd : ∀ ch ∈ c, ch.isDigit = true)
    (hdne : d ≠ []) (hdd : ∀ ch ∈ d, ch.isDigit = true) :
    scanTimestamp (b ++ ':' :: (c ++ '.' :: d)) =
      some (.msOnly (digitsVal b) (digitsVal c) (digitsVal d)) := by
  have hcb : ':' ∉ b := not_mem_of_all_digit ':' b hbd (by decide)
  have hccd : ':' ∉ c ++ '.' :: d := by
    intro hm
    rcases List.mem_append.1 hm with hm | hm
    · exact not_mem_of_all_digit ':' c hcd (by decide) hm
    · rcases List.mem_cons.1 hm with hm | hm
      · exact absurd hm (by decide)
      · exact not_mem_of_all_digit ':' d hdd (by decide) hm
  have hdotc : '.' ∉ c := not_mem_of_all_digit '.' c hcd (by decide)
  have hdotd : '.' ∉ d := not_mem_of_all_digit '.' d hdd (by decide)
  have hcount : (b ++ ':' :: (c ++ '.' :: d)).count ':' = 1 := by
    rw [count_append_sep ':' b _ hcb, count_no_sep ':' _ hccd]
  have hsplit : splitOnChar ':' (b ++ ':' :: (c ++ '.' :: d)) = [b, c ++ '.' :: d] := by
    rw [splitOnChar_append_sep ':' b _ hcb, splitOnChar_no_sep ':' _ hccd]
  rw [scanTimestamp, if_neg (by omega), if_pos hcount]
  simp only [hsplit, List.getD_cons_zero, List.getD_cons_succ]
  rw [splitOnChar_append_sep '.' c d hdotc, splitOnChar_no_sep '.' d hdotd]
  simp only [List.getD_cons_zero, List.getD_cons_succ]
  rw [pyInt_digits b hbne hbd, pyInt_digits c hcne hcd, pyInt_digits d hdne hdd]
  rfl

lemma scanTimestamp_bare_int (c : List Char) (hne : c ≠ [])
    (hd : ∀ ch ∈ c, ch.isDigit = true) :
    scanTimestamp c = some (.bare false (digitsVal c) 0 0) := by
  have hnc : ':' ∉ c := not_mem_of_all_digit ':' c hd (by decide)
  have hcount : c.count ':' = 0 := count_no_sep ':' c hnc
  rw [scanTimestamp, if_neg (by omega), if_neg (by omega),
    pyFloatScan_int c hne hd, Option.map_some']

lemma scanTimestamp_bare_frac (c d : List Char) (hcne : c ≠ [])
    (hcd : ∀ ch ∈ c, ch.isDigit = true) (hdd : ∀ ch ∈ d, ch.isDigit = true) :
    scanTimestamp (c ++ '.' :: d) =
      some (.bare false (digitsVal c) (digitsVal d) d.length) := by
  have hnc : ':' ∉ c ++ '.' :: d := by
    intro hm
    rcases List.mem_append.1 hm with hm | hm
    · exact not_mem_of_all_digit ':' c hcd (by decide) hm
    · rcases List.mem_cons.1 hm with hm | hm
      · exact absurd hm (by decide)
      · exact not_mem_of_all_digit ':' d hdd (by decide) hm
  have hcount : (c ++ '.' :: d).count ':' = 0 := count_no_sep ':' _ hnc
  rw [scanTimestamp, if_neg (by omega), if_neg (by omega),
    pyFloatScan_frac c d hcne hcd hdd, Option.map_some']

/-! ### Algebraic form of the coverage loop -/

/-- The marked subtitle produced by `overlapContribution`. -/
def subMark (chunk_start chunk_end : ℚ) (s : TimedSub) : TimedSub :=
  (overlapContribution chunk_start chunk_end s).1

/-- The duration contribution produced by `overlapContribution`. -/
def subContrib (chunk_start chunk_end : ℚ) (s : TimedSub) : ℚ :=
  (overlapContribution chunk_start chunk_end s).2

/-- All chunks of the outer loop applied to one subtitle in order. -/
def markAll (chunks : List TimedChunk) (s : TimedSub) : TimedSub :=
  chunks.foldl (fun t c => subMark c.start c.stop t) s

lemma subContrib_def (cs ce : ℚ) (s : TimedSub) :
    subContrib cs ce s =
      if s.start < ce ∧ s.stop > cs then
        (if min s.stop ce > max s.start cs then min s.stop ce - max s.start cs else 0)
      else 0 := by
  rw [subContrib, overlapContribution]
  split <;> rfl

lemma subMark_start (cs ce : ℚ) (s : TimedSub) : (subMark cs ce s).start = s.start := by
  rw [subMark, overlapContribution]
  split <;> rfl

lemma subMark_stop (cs ce : ℚ) (s : TimedSub) : (subMark cs ce s).stop = s.stop := by
  rw [subMark, overlapContribution]
  split <;> rfl

lemma subMark_covered (cs ce : ℚ) (s : TimedSub) :
    (subMark cs ce s).covered = (s.covered || decide (s.start < ce ∧ s.stop > cs)) := by
  rw [subMark, overlapContribution]
  split <;> rename_i h <;> simp [h]

lemma subContrib_subMark (cs ce cs2 ce2 : ℚ) (s : TimedSub) :
    subContrib cs ce (subMark cs2 ce2 s) = subContrib cs ce s := by
  rw [subContrib_def, subContrib_def, subMark_start, subMark_stop]

lemma coverWithChunk_eq (cs ce : ℚ) (subs : List TimedSub) :
    coverWithChunk cs ce subs =
      (subs.map (subMark cs ce), (subs.map (subContrib cs ce)).sum) := by
  induction subs with
  | nil => simp [coverWithChunk]
  | cons s rest ih => simp [coverWithChunk, ih, subMark, subContrib]

lemma coverAll_eq (chunks : List TimedChunk) (subs : List TimedSub) :
    coverAll chunks subs =
      (subs.map (markAll chunks),
       (chunks.map (fun c => (subs.map (subContrib c.start c.stop)).sum)).sum) := by
  induction chunks generalizing subs with
  | nil =>
    have h1 : List.map (markAll []) subs = List.map id subs :=
      List.map_congr_left fun s _ => rfl
    simp [coverAll, h1]
  | cons c cs ih =>
    rw [coverAll, coverWithChunk_eq, ih]
    refine Prod.ext ?_ ?_
    · show (subs.map (subMark c.start c.stop)).map (markAll cs) = subs.map (markAll (c :: cs))
      rw [List.map_map]
      rfl
    · show (subs.map (subContrib c.start c.stop)).sum +
        ((cs.map (fun d => ((subs.map (subMark c.start c.stop)).map
          (subContrib d.start d.stop)).sum)).sum) = _
      have hmm : ∀ d : TimedChunk,
          (subs.map (subMark c.start c.stop)).map (subContrib d.start d.stop) =
            subs.map (subContrib d.start d.stop) := by
        intro d
        rw [List.map_map]
        exact List.map_congr_left (fun s _ => subContrib_subMark _ _ _ _ s)
      simp only [hmm, List.map_cons, List.sum_cons]

lemma markAll_covered (chunks : List TimedChunk) (s : TimedSub) :
    (markAll chunks s).covered =
      (s.covered || chunks.any (fun c => decide (s.start < c.stop ∧ s.stop > c.start))) := by
  induction chunks generalizing s with
  | nil => simp [markAll]
  | cons c cs ih =>
    have hstep : markAll (c :: cs) s = markAll cs (subMark c.start c.stop s) := rfl
    rw [hstep, ih, subMark_covered]
    simp only [subMark_start, subMark_stop, List.any_cons, Bool.or_assoc]

/-! ### Order lemmas for contiguous positive-duration cue lists -/

lemma headD_mem {α : Type} (l : List α) (d : α) (h : l ≠ []) : l.headD d ∈ l := by
  cases l with
  | nil => exact absurd rfl h
  | cons a rest => simp

lemma getLastD_cons_eq {α : Type} (a : α) (l : List α) (d : α) :
    (a :: l).getLastD d = l.getLastD a := by
  cases l <;> rfl

lemma getLastD_mem {α : Type} (l : List α) (d : α) (h : l ≠ []) : l.getLastD d ∈ l := by
  induction l generalizing d with
  | nil => exact absurd rfl h
  | cons a rest ih =>
    rw [getLastD_cons_eq]
    cases rest with
    | nil => simp [List.getLastD]
    | cons b rest2 => exact List.mem_cons_of_mem a (ih a (by simp))

lemma getLastD_irrel {α : Type} (l : List α) (d d2 : α) (h : l ≠ []) :
    l.getLastD d = l.getLastD d2 := by
  induction l generalizing d d2 with
  | nil => exact absurd rfl h
  | cons a rest ih =>
    rw [getLastD_cons_eq, getLastD_cons_eq]

lemma chain_pos_pairwise (l : List TimedSub)
    (hchain : List.Chain' (fun s t => s.stop = t.start) l)
    (hpos : ∀ s ∈ l, s.start < s.stop) :
    l.Pairwise (fun s t => s.stop ≤ t.start) := by
  induction l with
  | nil => simp
  | cons s rest ih =>
    rcases rest with _ | ⟨t, rest2⟩
    · simp
    · have hch := List.chain'_cons.1 hchain
      have hp2 := ih hch.2 (fun x hx => hpos x (List.mem_cons_of_mem s hx))
      refine List.pairwise_cons.2 ⟨?_, hp2⟩
      intro u hu
      rcases List.mem_cons.1 hu with hu | hu
      · subst hu
        exact le_of_eq hch.1
      · have ht := (List.pairwise_cons.1 hp2).1 u hu
        have h2 : t.start < t.stop := hpos t (by simp)
        rw [hch.1]
        exact le_trans (le_of_lt h2) ht

lemma head_start_le (g : List TimedSub)
    (hp : g.Pairwise (fun s t => s.stop ≤ t.start))
    (hpos : ∀ s ∈ g, s.start < s.stop) :
    ∀ s ∈ g, (g.headD defaultTimedSub).start ≤ s.start := by
  intro s hs
  cases g with
  | nil => exact absurd hs (by simp)
  | cons a rest =>
    rcases List.mem_cons.1 hs with hs | hs
    · subst hs
      simp
    · have h1 : a.stop ≤ s.start := (List.pairwise_cons.1 hp).1 s hs
      have h2 : a.start < a.stop := hpos a (by simp)
      simp only [List.headD_cons]
      exact le_trans (le_of_lt h2) h1

lemma stop_le_getLast : ∀ (g : List TimedSub) (d : TimedSub),
    g.Pairwise (fun s t => s.stop ≤ t.start) →
    (∀ s ∈ g, s.start < s.stop) →
    ∀ s ∈ g, s.stop ≤ (g.getLastD d).stop := by
  intro g
  induction g with
  | nil =>
    intro d hp hpos s hs
    exact absurd hs (by simp)
  | cons a rest ih =>
    intro d hp hpos s hs
    rw [getLastD_cons_eq]
    cases rest with
    | nil =>
      rcases List.mem_cons.1 hs with hs | hs
      · subst hs
        simp [List.getLastD]
      · exact absurd hs (by simp)
    | cons b rest2 =>
      have hlast_mem : (b :: rest2).getLastD a ∈ b :: rest2 :=
        getLastD_mem _ _ (by simp)
      rcases List.mem_cons.1 hs with hs | hs
      · subst hs
        have h1 := (List.pairwise_cons.1 hp).1 _ hlast_mem
        have h2 := hpos _ (List.mem_cons_of_mem s hlast_mem)
        exact le_trans h1 (le_of_lt h2)
      · exact ih a (List.Pairwise.sublist (by simp) hp)
          (fun x hx => hpos x (List.mem_cons_of_mem a hx)) s hs

lemma forall2_mem_left {α β : Type} {R : α → β → Prop} :
    ∀ {l1 : List α} {l2 : List β}, List.Forall₂ R l1 l2 →
      ∀ a ∈ l1, ∃ b ∈ l2, R a b := by
  intro l1 l2 h
  induction h with
  | nil => simp
  | cons hab htail ih =>
    intro x hx
    rcases List.mem_cons.1 hx with hx | hx
    · subst hx
      exact ⟨_, by simp, hab⟩
    · rcases ih x hx with ⟨b, hb, hrb⟩
      exact ⟨b, List.mem_cons_of_mem _ hb, hrb⟩

lemma forall2_mem_right {α β : Type} {R : α → β → Prop} :
    ∀ {l1 : List α} {l2 : List β}, List.Forall₂ R l1 l2 →
      ∀ b ∈ l2, ∃ a ∈ l1, R a b := by
  intro l1 l2 h
  induction h with
  | nil => simp
  | cons hab htail ih =>
    intro y hy
    rcases List.mem_cons.1 hy with hy | hy
    · subst hy
      exact ⟨_, by simp, hab⟩
    · rcases ih y hy with ⟨a, ha, hra⟩
      exact ⟨a, List.mem_cons_of_mem _ ha, hra⟩

/-- One chunk against a cue list that decomposes into cues entirely before
it, cues inside it, and cues entirely after it: the accumulated
contribution is the total duration of the inside cues. -/
lemma sum_contrib_split (cs ce : ℚ) (pre g post : List TimedSub)
    (hpre : ∀ s ∈ pre, s.stop ≤ cs)
    (hpost : ∀ s ∈ post, ce ≤ s.start)
    (hg : ∀ s ∈ g, cs ≤ s.start ∧ s.stop ≤ ce ∧ s.start < s.stop) :
    ((pre ++ (g ++ post)).map (subContrib cs ce)).sum =
      (g.map (fun s => s.stop - s.start)).sum := by
  rw [List.map_append, List.map_append, List.sum_append, List.sum_append]
  have h1 : (pre.map (subContrib cs ce)).sum = 0 := by
    refine List.sum_eq_zero ?_
    intro x hx
    rcases List.mem_map.1 hx with ⟨s, hs, rfl⟩
    rw [subContrib_def, if_neg]
    rintro ⟨-, h2⟩
    exact absurd h2 (not_lt.2 (hpre s hs))
  have h3 : (post.map (subContrib cs ce)).sum = 0 := by
    refine List.sum_eq_zero ?_
    intro x hx
    rcases List.mem_map.1 hx with ⟨s, hs, rfl⟩
    rw [subContrib_def, if_neg]
    rintro ⟨h2, -⟩
    exact absurd h2 (not_lt.2 (hpost s hs))
  have h2 : g.map (subContrib cs ce) = g.map (fun s => s.stop - s.start) := by
    refine List.map_congr_left ?_
    intro s hs
    rcases hg s hs with ⟨hcs, hce, hpos⟩
    rw [subContrib_def, if_pos ⟨lt_of_lt_of_le hpos hce, lt_of_le_of_lt hcs hpos⟩]
    rw [min_eq_left hce, max_eq_left hcs, if_pos hpos]
  rw [h1, h2, h3]
  ring

/-- The outer loop over all chunks, each spanning one group of the
partition: the total contribution is the total duration of all cues. -/
lemma sum_contrib_all :
    ∀ (chTL : List TimedChunk) (groups : List (List TimedSub)) (pre : List TimedSub),
    List.Forall₂ (fun (c : TimedChunk) (g : List TimedSub) =>
      c.start = (g.headD defaultTimedSub).start ∧
      c.stop = (g.getLastD defaultTimedSub).stop) chTL groups →
    (∀ g ∈ groups, g ≠ []) →
    (pre ++ groups.join).Pairwise (fun s t => s.stop ≤ t.start) →
    (∀ s ∈ pre ++ groups.join, s.start < s.stop) →
    (chTL.map (fun c => ((pre ++ groups.join).map (subContrib c.start c.stop)).sum)).sum =
      ((groups.join).map (fun s => s.stop - s.start)).sum := by
  intro chTL groups pre h2
  induction h2 generalizing pre with
  | nil => simp
  | @cons c g cl gl hcg htail ih =>
    intro hgne hpair hpos
    have hgne1 : g ≠ [] := hgne g (by simp)
    have hjoin : (g :: gl).join = g ++ gl.join := by simp
    rw [hjoin] at hpair hpos
    have hsplit1 := (List.pairwise_append.1 hpair)
    have hsplit2 := (List.pairwise_append.1 hsplit1.2.1)
    have hgpair : g.Pairwise (fun s t => s.stop ≤ t.start) := hsplit2.1
    have hgpos : ∀ s ∈ g, s.start < s.stop := fun s hs =>
      hpos s (List.mem_append.2 (Or.inr (List.mem_append.2 (Or.inl hs))))
    simp only [List.map_cons, List.sum_cons, hjoin]
    have hinner : ((pre ++ (g ++ gl.join)).map (subContrib c.start c.stop)).sum =
        (g.map (fun s => s.stop - s.start)).sum := by
      refine sum_contrib_split c.start c.stop pre g gl.join ?_ ?_ ?_
      · intro s hs
        rw [hcg.1]
        exact hsplit1.2.2 s hs _ (List.mem_append.2 (Or.inl (headD_mem g _ hgne1)))
      · intro s hs
        rw [hcg.2]
        exact hsplit2.2.2 _ (getLastD_mem g _ hgne1) s hs
      · intro s hs
        refine ⟨?_, ?_, hgpos s hs⟩
        · rw [hcg.1]
          exact head_start_le g hgpair hgpos s hs
        · rw [hcg.2]
          exact stop_le_getLast g defaultTimedSub hgpair hgpos s hs
    have hrest : (cl.map (fun d =>
        ((pre ++ (g ++ gl.join)).map (subContrib d.start d.stop)).sum)).sum =
        ((gl.join).map (fun s => s.stop - s.start)).sum := by
      have hassoc : pre ++ (g ++ gl.join) = (pre ++ g) ++ gl.join :=
        (List.append_assoc pre g gl.join).symm
      rw [hassoc]
      refine ih (pre ++ g) (fun g2 hg2 => hgne g2 (List.mem_cons_of_mem g hg2)) ?_ ?_
      · rw [← hassoc]
        exact hpair
      · rw [← hassoc]
        exact hpos
    rw [hinner, hrest, List.map_append, List.sum_append]

/-- Telescoping: for a contiguous cue list the total duration equals last
end minus first start. -/
lemma chain_telescope : ∀ (l : List TimedSub) (d : TimedSub), l ≠ [] →
    List.Chain' (fun s t => s.stop = t.start) l →
    (l.map (fun s => s.stop - s.start)).sum =
      (l.getLastD d).stop - (l.headD d).start := by
  intro l
  induction l with
  | nil =>
    intro d h
    exact absurd rfl h
  | cons s rest ih =>
    intro d hne hchain
    cases rest with
    | nil => simp [List.getLastD]
    | cons t rest2 =>
      have hch := List.chain'_cons.1 hchain
      have hrec := ih s (by simp) hch.2
      rw [getLastD_cons_eq]
      simp only [List.map_cons, List.sum_cons] at hrec ⊢
      rw [hrec]
      simp only [List.headD_cons]
      rw [← hch.1]
      ring

/-- The chunk list of a partition is sorted by start time. -/
lemma chunks_pairwise :
    ∀ (chTL : List TimedChunk) (groups : List (List TimedSub)),
    List.Forall₂ (fun (c : TimedChunk) (g : List TimedSub) =>
      c.start = (g.headD defaultTimedSub).start ∧
      c.stop = (g.getLastD defaultTimedSub).stop) chTL groups →
    (∀ g ∈ groups, g ≠ []) →
    (groups.join).Pairwise (fun s t => s.stop ≤ t.start) →
    (∀ s ∈ groups.join, s.start < s.stop) →
    chTL.Pairwise (fun c d => c.start ≤ d.start) := by
  intro chTL groups h2
  induction h2 with
  | nil =>
    intro _ _ _
    simp
  | @cons c g cl gl hcg htail ih =>
    intro hgne hpair hpos
    have hjoin : (g :: gl).join = g ++ gl.join := by simp
    rw [hjoin] at hpair hpos
    have hsplit := List.pairwise_append.1 hpair
    refine List.pairwise_cons.2 ⟨?_, ?_⟩
    · intro d hd
      rcases forall2_mem_left htail d hd with ⟨g2, hg2, hd2⟩
      have hg2ne : g2 ≠ [] := hgne g2 (List.mem_cons_of_mem g hg2)
      have hgne1 : g ≠ [] := hgne g (by simp)
      have hh : (g.headD defaultTimedSub) ∈ g := headD_mem g _ hgne1
      have hh2 : (g2.headD defaultTimedSub) ∈ gl.join :=
        List.mem_join.2 ⟨g2, hg2, headD_mem g2 _ hg2ne⟩
      have hcross : (g.headD defaultTimedSub).stop ≤ (g2.headD defaultTimedSub).start :=
        hsplit.2.2 _ hh _ hh2
      have hposh : (g.headD defaultTimedSub).start < (g.headD defaultTimedSub).stop :=
        hpos _ (List.mem_append.2 (Or.inl hh))
      rw [hcg.1, hd2.1]
      exact le_trans (le_of_lt hposh) hcross
    · exact ih (fun g2 hg2 => hgne g2 (List.mem_cons_of_mem g hg2)) hsplit.2.1
        (fun s hs => hpos s (List.mem_append.2 (Or.inr hs)))

/-! ### Word-splitting lemmas -/

lemma ws_char_cases (ch : Char) (h : ch.isWhitespace = true) :
    ch = ' ' ∨ ch = '\t' ∨ ch = '\r' ∨ ch = '\n' := by
  simp only [Char.isWhitespace, Bool.or_eq_true, decide_eq_true_eq] at h
  tauto

lemma toLower_ws (ch : Char) (h : ch.isWhitespace = true) : ch.toLower = ch := by
  rcases ws_char_cases ch h with h1 | h1 | h1 | h1 <;> subst h1 <;> decide

lemma splitWsAux_all_ws : ∀ (w : List Char), (∀ ch ∈ w, ch.isWhitespace = true) →
    ∀ acc, splitWsAux acc w = if acc.isEmpty then [] else [acc.reverse] := by
  intro w
  induction w with
  | nil =>
    intro _ acc
    rfl
  | cons c rest ih =>
    intro hw acc
    have hc : c.isWhitespace = true := hw c (by simp)
    have ihr := ih (fun ch hch => hw ch (by simp [hch])) []
    by_cases hacc : acc.isEmpty
    · simp [splitWsAux, hc, hacc, ihr]
    · simp [splitWsAux, hc, hacc, ihr]

lemma splitWsAux_append_ws : ∀ (x w : List Char),
    (∀ ch ∈ w, ch.isWhitespace = true) →
    ∀ acc, splitWsAux acc (x ++ w) = splitWsAux acc x := by
  intro x w hw
  induction x with
  | nil =>
    intro acc
    rw [List.nil_append, splitWsAux_all_ws w hw acc]
    rfl
  | cons c x2 ih =>
    intro acc
    by_cases hc : c.isWhitespace
    · by_cases hacc : acc.isEmpty
      · simp [splitWsAux, hc, hacc, ih []]
      · simp [splitWsAux, hc, hacc, ih []]
    · simp [splitWsAux, hc, ih (c :: acc)]

lemma splitWsAux_leading_ws : ∀ (w r : List Char),
    (∀ ch ∈ w, ch.isWhitespace = true) →
    splitWsAux [] (w ++ r) = splitWsAux [] r := by
  intro w
  induction w with
  | nil =>
    intro r _
    rfl
  | cons c w2 ih =>
    intro r hw
    have hc : c.isWhitespace = true := hw c (by simp)
    have ihr := ih r (fun ch hch => hw ch (by simp [hch]))
    simp [splitWsAux, hc, ihr]

lemma splitWsAux_append_space : ∀ (x : List Char) (acc y : List Char),
    splitWsAux acc (x ++ ' ' :: y) = splitWsAux acc x ++ splitWs y := by
  intro x
  induction x with
  | nil =>
    intro acc y
    by_cases hacc : acc.isEmpty
    · simp [splitWsAux, hacc, splitWs]
    · simp [splitWsAux, hacc, splitWs]
  | cons c x2 ih =>
    intro acc y
    by_cases hc : c.isWhitespace
    · by_cases hacc : acc.isEmpty
      · simp [splitWsAux, hc, hacc, ih []]
      · simp [splitWsAux, hc, hacc, ih []]
    · simp [splitWsAux, hc, ih (c :: acc)]

lemma splitWs_joinSpace : ∀ (ls : List (List Char)),
    splitWs (joinSpace ls) = (ls.map splitWs).join := by
  intro ls
  induction ls with
  | nil => rfl
  | cons t rest ih =>
    cases rest with
    | nil => simp [joinSpace]
    | cons t2 rest2 =>
      rw [show joinSpace (t :: t2 :: rest2) = t ++ ' ' :: joinSpace (t2 :: rest2) from rfl]
      rw [splitWs, splitWsAux_append_space t [] (joinSpace (t2 :: rest2))]
      rw [show splitWsAux [] t = splitWs t from rfl, ih]
      simp

lemma splitWsAux_collapseWs : ∀ (z : List Char) (acc : List Char),
    splitWsAux acc (collapseWs z) = splitWsAux acc z := by
  intro z
  induction z with
  | nil =>
    intro acc
    rfl
  | cons c1 rest ih =>
    cases rest with
    | nil =>
      intro acc
      by_cases h : c1.isWhitespace
      · by_cases hacc : acc.isEmpty
        · simp [collapseWs, splitWsAux, h, hacc]
        · simp [collapseWs, splitWsAux, h, hacc]
      · simp [collapseWs, h]
    | cons c2 rest2 =>
      intro acc
      have hcoll : collapseWs (c1 :: c2 :: rest2) =
          (if c1.isWhitespace then
            (if c2.isWhitespace then collapseWs (c2 :: rest2)
             else ' ' :: collapseWs (c2 :: rest2))
           else c1 :: collapseWs (c2 :: rest2)) := rfl
      rw [hcoll]
      by_cases h1 : c1.isWhitespace
      · by_cases h2 : c2.isWhitespace
        · rw [if_pos h1, if_pos h2, ih acc]
          by_cases hacc : acc.isEmpty
          · simp [splitWsAux, h1, h2, hacc]
          · simp [splitWsAux, h1, h2, hacc]
        · rw [if_pos h1, if_neg h2]
          by_cases hacc : acc.isEmpty
          · simp [splitWsAux, h1, hacc, ih []]
          · simp [splitWsAux, h1, hacc, ih []]
      · rw [if_neg h1]
        simp [splitWsAux, h1, ih (c1 :: acc)]

lemma splitWs_collapseWs (z : List Char) : splitWs (collapseWs z) = splitWs z :=
  splitWsAux_collapseWs z []

lemma stripWs_decomp (t : List Char) :
    ∃ pfx sfx, t = pfx ++ (stripWs t ++ sfx) ∧
      (∀ ch ∈ pfx, ch.isWhitespace = true) ∧ (∀ ch ∈ sfx, ch.isWhitespace = true) := by
  refine ⟨t.takeWhile Char.isWhitespace,
    ((t.dropWhile Char.isWhitespace).reverse.takeWhile Char.isWhitespace).reverse,
    ?_, ?_, ?_⟩
  · have h1 := List.takeWhile_append_dropWhile Char.isWhitespace t
    have h2 := List.takeWhile_append_dropWhile Char.isWhitespace
      (t.dropWhile Char.isWhitespace).reverse
    have h3 : stripWs t ++
        ((t.dropWhile Char.isWhitespace).reverse.takeWhile Char.isWhitespace).reverse =
        t.dropWhile Char.isWhitespace := by
      have h4 := congrArg List.reverse h2
      rw [List.reverse_append, List.reverse_reverse] at h4
      rw [stripWs]
      exact h4
    rw [h3]
    exact h1.symm
  · intro ch hch
    exact List.mem_takeWhile_imp hch
  · intro ch hch
    exact List.mem_takeWhile_imp (List.mem_reverse.1 hch)

lemma splitWs_lower_strip (t : List Char) :
    splitWs (lowerChars (stripWs t)) = splitWs (lowerChars t) := by
  rcases stripWs_decomp t with ⟨pfx, sfx, hdec, hpfx, hsfx⟩
  have hws1 : ∀ ch ∈ List.map Char.toLower pfx, ch.isWhitespace = true := by
    intro ch hch
    rcases List.mem_map.1 hch with ⟨c, hc, rfl⟩
    rw [toLower_ws c (hpfx c hc)]
    exact hpfx c hc
  have hws2 : ∀ ch ∈ List.map Char.toLower sfx, ch.isWhitespace = true := by
    intro ch hch
    rcases List.mem_map.1 hch with ⟨c, hc, rfl⟩
    rw [toLower_ws c (hsfx c hc)]
    exact hsfx c hc
  conv_rhs => rw [hdec]
  simp only [lowerChars, List.map_append]
  rw [show splitWs (List.map Char.toLower pfx ++
      (List.map Char.toLower (stripWs t) ++ List.map Char.toLower sfx)) =
    splitWsAux [] (List.map Char.toLower pfx ++
      (List.map Char.toLower (stripWs t) ++ List.map Char.toLower sfx)) from rfl]
  rw [splitWsAux_leading_ws (List.map Char.toLower pfx) _ hws1]
  rw [splitWsAux_append_ws (List.map Char.toLower (stripWs t))
    (List.map Char.toLower sfx) hws2 []]
  rfl

lemma normalize_words (t : List Char) :
    splitWs (normalizeChars t) = splitWs (lowerChars t) := by
  rw [normalizeChars, splitWs_collapseWs, splitWs_lower_strip]

lemma lowerChars_joinSpace : ∀ (ls : List (List Char)),
    lowerChars (joinSpace ls) = joinSpace (ls.map lowerChars) := by
  intro ls
  induction ls with
  | nil => rfl
  | cons t rest ih =>
    cases rest with
    | nil => rfl
    | cons t2 rest2 =>
      rw [show joinSpace (t :: t2 :: rest2) = t ++ ' ' :: joinSpace (t2 :: rest2) from rfl]
      rw [lowerChars, List.map_append, List.map_cons]
      rw [show Char.toLower ' ' = ' ' from by decide]
      rw [show List.map Char.toLower (joinSpace (t2 :: rest2)) =
        lowerChars (joinSpace (t2 :: rest2)) from rfl, ih]
      rfl

lemma normalize_words_joinSpace (ts : List (List Char)) :
    splitWs (normalizeChars (joinSpace ts)) =
      (ts.map (fun t => splitWs (normalizeChars t))).join := by
  rw [normalize_words, lowerChars_joinSpace, splitWs_joinSpace, List.map_map]
  congr 1
  exact List.map_congr_left (fun t _ => (normalize_words t).symm)

lemma combinedWords_eq (texts : List String) :
    combinedWords texts =
      ((texts.map (fun t => splitWs (normalizeChars t.data))).join).toFinset := by
  rw [combinedWords, wordSet, splitWs_joinSpace, List.map_map]
  rfl

lemma join_map_join {α β : Type} (L : List (List α)) (f : α → List β) :
    (L.map (fun g => (g.map f).join)).join = ((L.join).map f).join := by
  induction L with
  | nil => rfl
  | cons g gl ih =>
    simp only [List.map_cons, List.join_cons, List.map_append, List.join_append, ih]

lemma forall2_map_eq {α β γ : Type} {R : α → β → Prop} (f : α → γ) (g : β → γ)
    (hfg : ∀ a b, R a b → f a = g b) :
    ∀ {l1 : List α} {l2 : List β}, List.Forall₂ R l1 l2 → l1.map f = l2.map g := by
  intro l1 l2 h
  induction h with
  | nil => rfl
  | cons hab htail ih => simp [hfg _ _ hab, ih]

/-! ### Shape of the parsed timelines -/

lemma buildSubTimeline_shape : ∀ (i : Nat) (o : List RawSub) (tl : List TimedSub),
    buildSubTimeline i o = .ok tl →
    tl.map (fun s => s.text) = o.map (fun s => s.text) ∧ tl.length = o.length := by
  intro i o
  induction o generalizing i with
  | nil =>
    intro tl h
    rw [buildSubTimeline] at h
    cases h
    simp
  | cons s rest ih =>
    intro tl h
    rw [buildSubTimeline] at h
    rcases hp1 : parse_timestamp s.start with _ | v1 <;> rw [hp1] at h
    · cases h
    · rcases hp2 : parse_timestamp s.stop with _ | v2 <;> rw [hp2] at h
      · cases h
      · rcases hb : buildSubTimeline (i + 1) rest with e | tl2 <;> rw [hb] at h
        · cases h
        · cases h
          rcases ih (i + 1) tl2 hb with ⟨h1, h2⟩
          simp [h1, h2]

lemma buildChunkTimeline_shape : ∀ (i : Nat) (p : List RawSub) (tl : List TimedChunk),
    buildChunkTimeline i p = .ok tl →
    tl.map (fun c => c.text) = p.map (fun c => c.text) ∧ tl.length = p.length := by
  intro i p
  induction p generalizing i with
  | nil =>
    intro tl h
    rw [buildChunkTimeline] at h
    cases h
    simp
  | cons c rest ih =>
    intro tl h
    rw [buildChunkTimeline] at h
    rcases hp1 : parse_timestamp c.start with _ | v1 <;> rw [hp1] at h
    · cases h
    · rcases hp2 : parse_timestamp c.stop with _ | v2 <;> rw [hp2] at h
      · cases h
      · rcases hb : buildChunkTimeline (i + 1) rest with e | tl2 <;> rw [hb] at h
        · cases h
        · cases h
          rcases ih (i + 1) tl2 hb with ⟨h1, h2⟩
          simp [h1, h2]

/-! ### Membership characterization of the duplicate detector -/

/-- Placeholder input record for `List.getD`. -/
def defaultRawSub : RawSub :=
  { start := "", stop := "", text := "" }

lemma dupInner_mem (i j0 : Nat) (w1 : Finset (List Char)) (ts : List (List Char))
    (d : DuplicatePair) :
    d ∈ dupInner i w1 j0 ts ↔
      ∃ k, k < ts.length ∧ w1 ≠ ∅ ∧ wordSet (ts.getD k []) ≠ ∅ ∧
        ((w1 ∩ wordSet (ts.getD k [])).card : ℚ) /
          ((w1 ∪ wordSet (ts.getD k [])).card : ℚ) > 1/2 ∧
        d = { chunk1 := i, chunk2 := j0 + k,
              overlap_ratio := ((w1 ∩ wordSet (ts.getD k [])).card : ℚ) /
                ((w1 ∪ wordSet (ts.getD k [])).card : ℚ) } := by
  induction ts generalizing j0 with
  | nil => simp [dupInner]
  | cons t2 rest ih =>
    rw [dupInner]
    simp only [List.mem_append, ih]
    have hhead : d ∈ (if w1 ≠ ∅ ∧ wordSet t2 ≠ ∅ then
        if ((w1 ∩ wordSet t2).card : ℚ) / ((w1 ∪ wordSet t2).card : ℚ) > 1/2 then
          [{ chunk1 := i, chunk2 := j0,
             overlap_ratio := ((w1 ∩ wordSet t2).card : ℚ) /
               ((w1 ∪ wordSet t2).card : ℚ) }]
        else []
      else []) ↔
        (w1 ≠ ∅ ∧ wordSet t2 ≠ ∅ ∧
         ((w1 ∩ wordSet t2).card : ℚ) / ((w1 ∪ wordSet t2).card : ℚ) > 1/2 ∧
         d = { chunk1 := i, chunk2 := j0,
               overlap_ratio := ((w1 ∩ wordSet t2).card : ℚ) /
                 ((w1 ∪ wordSet t2).card : ℚ) }) := by
      split_ifs with h1 h2
      · simp only [List.mem_singleton]
        exact ⟨fun hd => ⟨h1.1, h1.2, h2, hd⟩, fun hx => hx.2.2.2⟩
      · simp only [List.not_mem_nil, false_iff]
        rintro ⟨ha, hb, hc, hd⟩
        exact h2 hc
      · simp only [List.not_mem_nil, false_iff]
        rintro ⟨ha, hb, hc, hd⟩
        exact h1 ⟨ha, hb⟩
    rw [hhead]
    constructor
    · rintro (⟨h1, h2, h3, h4⟩ | ⟨k, hk, h1, h2, h3, h4⟩)
      · exact ⟨0, by simp, h1, by simpa using h2, by simpa using h3, by simpa using h4⟩
      · refine ⟨k + 1, by simpa using hk, h1, by simpa using h2, by simpa using h3, ?_⟩
        rw [List.getD_cons_succ]
        rw [h4]
        congr 1
        omega
    · rintro ⟨k, hk, h1, h2, h3, h4⟩
      cases k with
      | zero =>
        left
        exact ⟨h1, by simpa using h2, by simpa using h3, by simpa using h4⟩
      | succ k' =>
        right
        refine ⟨k', by simpa using hk, h1, by simpa using h2, by simpa using h3, ?_⟩
        rw [List.getD_cons_succ] at h4
        rw [h4]
        congr 1
        omega

lemma findDuplicates_mem (i0 : Nat) (ts : List (List Char)) (d : DuplicatePair) :
    d ∈ findDuplicates i0 ts ↔
      ∃ a k, a < k ∧ k < ts.length ∧
        wordSet (ts.getD a []) ≠ ∅ ∧ wordSet (ts.getD k []) ≠ ∅ ∧
        ((wordSet (ts.getD a []) ∩ wordSet (ts.getD k [])).card : ℚ) /
          ((wordSet (ts.getD a []) ∪ wordSet (ts.getD k [])).card : ℚ) > 1/2 ∧
        d = { chunk1 := i0 + a, chunk2 := i0 + k,
              overlap_ratio := ((wordSet (ts.getD a []) ∩ wordSet (ts.getD k [])).card : ℚ) /
                ((wordSet (ts.getD a []) ∪ wordSet (ts.getD k [])).card : ℚ) } := by
  induction ts generalizing i0 with
  | nil => simp [findDuplicates]
  | cons t1 rest ih =>
    rw [findDuplicates]
    simp only [List.mem_append, dupInner_mem, ih]
    constructor
    · rintro (⟨k, hk, h1, h2, h3, h4⟩ | ⟨a, k, hak, hk, h1, h2, h3, h4⟩)
      · refine ⟨0, k + 1, by omega, by simpa using hk, by simpa using h1,
          by simpa using h2, by simpa using h3, ?_⟩
        simp only [List.getD_cons_zero, List.getD_cons_succ]
        rw [h4]
        congr 1
        omega
      · refine ⟨a + 1, k + 1, by omega, by simpa using hk, by simpa using h1,
          by simpa using h2, by simpa using h3, ?_⟩
        simp only [List.getD_cons_succ]
        rw [h4]
        congr 1 <;> omega
    · rintro ⟨a, k, hak, hk, h1, h2, h3, h4⟩
      cases a with
      | zero =>
        left
        cases k with
        | zero => omega
        | succ k' =>
          refine ⟨k', by simpa using hk, by simpa using h1, by simpa using h2,
            by simpa using h3, ?_⟩
          simp only [List.getD_cons_zero, List.getD_cons_succ] at h4
          rw [h4]
          congr 1
          omega
      | succ a' =>
        right
        cases k with
        | zero => omega
        | succ k' =>
          refine ⟨a', k', by omega, by simpa using hk, by simpa using h1,
            by simpa using h2, by simpa using h3, ?_⟩
          simp only [List.getD_cons_succ] at h4
          rw [h4]
          congr 1 <;> omega

lemma getD_map_normalize (p : List RawSub) (a : Nat) (ha : a < p.length) :
    (p.map (fun c => normalizeChars c.text.data)).getD a [] =
      normalizeChars ((p.getD a defaultRawSub).text.data) := by
  rw [List.getD_eq_getElem?_getD, List.getD_eq_getElem?_getD, List.getElem?_map]
  rw [List.getElem?_eq_getElem ha]
  simp

/-! ### Claim theorems -/

/-- Counterexample to claim C5: the chunks [0-1 s "a", 2-3 s "b"] are an
exact partition of the cues [0-1 s "a", 2-3 s "b"] — each cue lies in
exactly one chunk (itself), chunk boundaries equal cue boundaries, each
chunk's text is the concatenation of its one cue's text — yet, because of
the one-second gap between the cues, the covered duration is 2 s against a
3 s span, so `timeline_coverage_percentage` is 200/3 < 95, an error is
recorded, and `coverage_complete` is false (while `missing_subtitles` is
empty and text coverage is 100 as the claim says). -/
theorem c5_counterexample :
    (validate_chunk_coverage
        [{ start := "0", stop := "1", text := "a" }, { start := "2", stop := "3", text := "b" }]
        [{ start := "0", stop := "1", text := "a" }, { start := "2", stop := "3", text := "b" }]).map
      (fun r => (r.coverage_complete, r.timeline_coverage_percentage,
        r.missing_subtitles.length, r.text_coverage_percentage)) =
      .ok (false, 200/3, 0, 100) ∧
    (200/3 : ℚ) ≠ 100 := by
  refine ⟨?_, by norm_num⟩
  have hsub : buildSubTimeline 0
      [{ start := "0", stop := "1", text := "a" }, { start := "2", stop := "3", text := "b" }] =
      .ok [{ index := 0, start := 0, stop := 1, text := "a", covered := false },
           { index := 1, start := 2, stop := 3, text := "b", covered := false }] := by
    simp [buildSubTimeline, parse_ts_zero, parse_ts_one, parse_ts_two, parse_ts_three,
      Except.map]
  have hch : buildChunkTimeline 0
      [{ start := "0", stop := "1", text := "a" }, { start := "2", stop := "3", text := "b" }] =
      .ok [{ index := 0, start := 0, stop := 1, text := "a" },
           { index := 1, start := 2, stop := 3, text := "b" }] := by
    simp [buildChunkTimeline, parse_ts_zero, parse_ts_one, parse_ts_two, parse_ts_three,
      Except.map]
  rw [validate_chunk_coverage_nonempty _ _ (by simp) (by simp), hsub]
  simp only [Except.bind, hch]
  have htot : totalSubtitleDuration
      [{ index := 0, start := 0, stop := 1, text := "a", covered := false },
       { index := 1, start := 2, stop := 3, text := "b", covered := false }] = 3 := by
    norm_num [totalSubtitleDuration, sortByKey, insertByKey]
  rw [validateCore, if_neg (by rw [htot]; norm_num)]
  have hcov : coveredDuration
      [{ index := 0, start := 0, stop := 1, text := "a", covered := false },
       { index := 1, start := 2, stop := 3, text := "b", covered := false }]
      [{ index := 0, start := 0, stop := 1, text := "a" },
       { index := 1, start := 2, stop := 3, text := "b" }] = 2 := by
    norm_num [coveredDuration, sortByKey, insertByKey, coverAll, coverWithChunk,
      overlapContribution]
  have hmark : markedSubtitles
      [{ index := 0, start := 0, stop := 1, text := "a", covered := false },
       { index := 1, start := 2, stop := 3, text := "b", covered := false }]
      [{ index := 0, start := 0, stop := 1, text := "a" },
       { index := 1, start := 2, stop := 3, text := "b" }] =
      [{ index := 0, start := 0, stop := 1, text := "a", covered := true },
       { index := 1, start := 2, stop := 3, text := "b", covered := true }] := by
    norm_num [markedSubtitles, sortByKey, insertByKey, coverAll, coverWithChunk,
      overlapContribution]
  have htext : textCoveragePct ["a", "b"] ["a", "b"] = 100 := by
    have hw : combinedWords ["a", "b"] = {['a'], ['b']} := by decide
    simp only [textCoveragePct, hw]
    rw [if_pos (by decide)]
    rw [show (({['a'], ['b']} : Finset (List Char)) ∩ {['a'], ['b']}).card = 2 from by decide]
    rw [show ({['a'], ['b']} : Finset (List Char)).card = 2 from by decide]
    norm_num
  simp only [Except.map, assembledReport, List.map_cons, List.map_nil]
  rw [hcov, htot, hmark, htext]
  have hmissing :
      (([{ index := 0, start := 0, stop := 1, text := "a", covered := true },
         { index := 1, start := 2, stop := 3, text := "b", covered := true }] :
        List TimedSub).filter (fun s => !s.covered)) = [] := by
    simp [List.filter]
  rw [hmissing]
  have hverdict : verdict ([] : List TimedSub) 100 (2 / 3 * 100) = false := by
    rw [verdict, decide_eq_false_iff_not]
    rintro ⟨-, -, hge, -⟩
    norm_num at hge
  rw [hverdict]
  norm_num

/-- Claim C7: `parse_timestamp("0:01:05,500")`, `parse_timestamp("0:01:05.500")`
and `parse_timestamp("1:05.500")` each return 65.5 seconds; the first two
inputs take the two-colon (hours-form) branch and the third the one-colon
(minutes-form) branch. -/
theorem c7_parse_timestamp_equivalence :
    parse_timestamp "0:01:05,500" = some (131/2) ∧
    parse_timestamp "0:01:05.500" = some (131/2) ∧
    parse_timestamp "1:05.500" = some (131/2) ∧
    ("0:01:05,500".data.map commaToPeriod).count ':' = 2 ∧
    ("0:01:05.500".data.map commaToPeriod).count ':' = 2 ∧
    ("1:05.500".data.map commaToPeriod).count ':' = 1 := by
  refine ⟨?_, ?_, ?_, by decide, by decide, by decide⟩
  · rw [parse_timestamp_of_scan "0:01:05,500" (.hms 0 1 5 500) (by decide)]
    norm_num [tsValue]
  · rw [parse_timestamp_of_scan "0:01:05.500" (.hms 0 1 5 500) (by decide)]
    norm_num [tsValue]
  · rw [parse_timestamp_of_scan "1:05.500" (.msOnly 1 5 500) (by decide)]
    norm_num [tsValue]

/-- Counterexample to claim C6: the claim says the fractional part is
interpreted as a decimal fraction of a second, with "0:00:01.5" mapping to
1.5 seconds; the code instead feeds the fractional digits to `int()` and
divides by 1000, so "0:00:01.5" parses to 1.005 seconds, not 1.5. -/
theorem c6_counterexample :
    parse_timestamp "0:00:01.5" = some (201/200) ∧ (201/200 : ℚ) ≠ 3/2 := by
  constructor
  · rw [parse_timestamp_of_scan "0:00:01.5" (.hms 0 0 1 5) (by decide)]
    norm_num [tsValue]
  · norm_num

/-- Claim C5 as amended: for every nonempty cue list whose timestamps
parse, whose cues have positive durations and are contiguous (each cue's
end is the next cue's start), and whose texts contain at least one word,
if the chunks form an exact partition of the cues — the cues split into
nonempty consecutive groups, each chunk's bounds are its group's first
start and last end, each chunk's text is the (space-separated)
concatenation of its cues' text — then `validate_chunk_coverage` returns a
report with `coverage_complete` true, no missing subtitles, text coverage
100 and timeline coverage 100.  (The contiguity hypothesis is forced by
the counterexample: a gap between cues breaks the timeline percentage even
for an exact partition.) -/
theorem c5_amended_full_coverage (o p : List RawSub)
    (subTL : List TimedSub) (chTL : List TimedChunk)
    (groups : List (List TimedSub))
    (ho : o ≠ [])
    (hs : buildSubTimeline 0 o = .ok subTL)
    (hc : buildChunkTimeline 0 p = .ok chTL)
    (hpos : ∀ s ∈ subTL, s.start < s.stop)
    (hchain : List.Chain' (fun s t => s.stop = t.start) subTL)
    (hjoin : groups.join = subTL)
    (hgne : ∀ g ∈ groups, g ≠ [])
    (hchunks : List.Forall₂
      (fun (c : TimedChunk) (g : List TimedSub) =>
        c.start = (g.headD defaultTimedSub).start ∧
        c.stop = (g.getLastD defaultTimedSub).stop ∧
        c.text = String.mk (joinSpace (g.map (fun s => s.text.data)))) chTL groups)
    (hword : combinedWords (o.map (fun s => s.text)) ≠ ∅) :
    ∃ r, validate_chunk_coverage o p = .ok r ∧
      r.coverage_complete = true ∧ r.missing_subtitles = [] ∧
      r.text_coverage_percentage = 100 ∧ r.timeline_coverage_percentage = 100 := by
  obtain ⟨hotext, holen⟩ := buildSubTimeline_shape 0 o subTL hs
  obtain ⟨hptext, hplen⟩ := buildChunkTimeline_shape 0 p chTL hc
  have hsubne : subTL ≠ [] := by
    intro hnil
    apply ho
    rw [hnil] at holen
    exact List.length_eq_zero.1 holen.symm
  have hgroupsne : groups ≠ [] := by
    intro hnil
    rw [hnil] at hjoin
    exact hsubne (by simpa using hjoin.symm)
  have hchTLne : chTL ≠ [] := by
    intro hnil
    rw [hnil] at hchunks
    exact hgroupsne (List.forall₂_nil_left_iff.1 hchunks)
  have hpne : p ≠ [] := by
    intro hnil
    apply hchTLne
    rw [hnil] at hplen
    exact List.length_eq_zero.1 hplen
  have hpair : subTL.Pairwise (fun s t => s.stop ≤ t.start) :=
    chain_pos_pairwise subTL hchain hpos
  have hpair_start : subTL.Pairwise (fun s t => s.start ≤ t.start) :=
    List.Pairwise.imp_of_mem (fun ha hb h => le_trans (le_of_lt (hpos _ ha)) h) hpair
  have hsorts : sortByKey (fun s => s.start) subTL = subTL :=
    sortByKey_eq_self _ _ hpair_start
  have hb2 : List.Forall₂ (fun (c : TimedChunk) (g : List TimedSub) =>
      c.start = (g.headD defaultTimedSub).start ∧
      c.stop = (g.getLastD defaultTimedSub).stop) chTL groups :=
    List.Forall₂.imp (fun c g h => ⟨h.1, h.2.1⟩) hchunks
  have hjpair : (groups.join).Pairwise (fun s t => s.stop ≤ t.start) := by
    rw [hjoin]
    exact hpair
  have hjpos : ∀ s ∈ groups.join, s.start < s.stop := by
    rw [hjoin]
    exact hpos
  have hcpair : chTL.Pairwise (fun c d => c.start ≤ d.start) :=
    chunks_pairwise chTL groups hb2 hgne hjpair hjpos
  have hsortc : sortByKey (fun c => c.start) chTL = chTL :=
    sortByKey_eq_self _ _ hcpair
  have hsum : (subTL.map (fun s => s.stop - s.start)).sum =
      (subTL.getLastD defaultTimedSub).stop - (subTL.headD defaultTimedSub).start :=
    chain_telescope subTL defaultTimedSub hsubne hchain
  have htot_eq : totalSubtitleDuration subTL = (subTL.map (fun s => s.stop - s.start)).sum := by
    rw [totalSubtitleDuration, hsorts, hsum]
  have htot_pos : 0 < totalSubtitleDuration subTL := by
    rw [htot_eq]
    refine List.sum_pos _ ?_ (by simp [hsubne])
    intro x hx
    rcases List.mem_map.1 hx with ⟨s, hs2, rfl⟩
    have := hpos s hs2
    linarith
  have htot_ne : totalSubtitleDuration subTL ≠ 0 := ne_of_gt htot_pos
  have hcov : coveredDuration subTL chTL = totalSubtitleDuration subTL := by
    have hmain := sum_contrib_all chTL groups [] hb2 hgne
      (by rw [List.nil_append]; exact hjpair) (by rw [List.nil_append]; exact hjpos)
    rw [List.nil_append, hjoin] at hmain
    rw [coveredDuration, hsorts, hsortc, coverAll_eq, htot_eq]
    exact hmain
  have htl : coveredDuration subTL chTL / totalSubtitleDuration subTL * 100 = 100 := by
    rw [hcov, div_self htot_ne]
    norm_num
  have hmiss : (markedSubtitles subTL chTL).filter (fun s => !s.covered) = [] := by
    rw [markedSubtitles, hsorts, hsortc, coverAll_eq]
    refine List.filter_eq_nil.2 ?_
    intro x hx
    rcases List.mem_map.1 hx with ⟨s, hsm, rfl⟩
    have hsin : s ∈ groups.join := by
      rw [hjoin]
      exact hsm
    rcases List.mem_join.1 hsin with ⟨g, hgmem, hsg⟩
    rcases forall2_mem_right hb2 g hgmem with ⟨c, hcmem, hrel⟩
    have hgsplit := List.pairwise_join.1 hjpair
    have hgpairwise : g.Pairwise (fun s t => s.stop ≤ t.start) := hgsplit.1 g hgmem
    have hgpos : ∀ t ∈ g, t.start < t.stop := fun t ht =>
      hjpos t (List.mem_join.2 ⟨g, hgmem, ht⟩)
    have hov : s.start < c.stop ∧ s.stop > c.start := by
      constructor
      · rw [hrel.2]
        exact lt_of_lt_of_le (hgpos s hsg)
          (stop_le_getLast g defaultTimedSub hgpairwise hgpos s hsg)
      · rw [hrel.1]
        exact lt_of_le_of_lt (head_start_le g hgpairwise hgpos s hsg) (hgpos s hsg)
    have hany : chTL.any (fun d => decide (s.start < d.stop ∧ s.stop > d.start)) = true :=
      List.any_eq_true.2 ⟨c, hcmem, by simpa using hov⟩
    simp only [markAll_covered, hany, Bool.or_true, Bool.not_true, Bool.false_eq_true,
      not_false_eq_true]
  have hwords : ((p.map (fun c => c.text)).map
        (fun t => splitWs (normalizeChars t.data))).join =
      ((o.map (fun s => s.text)).map (fun t => splitWs (normalizeChars t.data))).join := by
    rw [show (o.map fun s => s.text) = (subTL.map fun s => s.text) from hotext.symm]
    rw [show (p.map fun c => c.text) = (chTL.map fun c => c.text) from hptext.symm]
    rw [List.map_map, List.map_map]
    have hchunkwords : chTL.map (fun c => splitWs (normalizeChars c.text.data)) =
        groups.map (fun g => (g.map (fun s => splitWs (normalizeChars s.text.data))).join) := by
      refine forall2_map_eq _ _ ?_ hchunks
      intro c g hrel
      show splitWs (normalizeChars c.text.data) = _
      rw [hrel.2.2]
      show splitWs (normalizeChars (joinSpace (g.map (fun s => s.text.data)))) = _
      rw [normalize_words_joinSpace, List.map_map]
      rfl
    rw [show chTL.map ((fun t : String => splitWs (normalizeChars t.data)) ∘
        (fun c : TimedChunk => c.text)) =
      chTL.map (fun c => splitWs (normalizeChars c.text.data)) from rfl]
    rw [hchunkwords, join_map_join, hjoin]
    rfl
  have htext_eq : combinedWords (p.map fun c => c.text) =
      combinedWords (o.map fun s => s.text) := by
    rw [combinedWords_eq, combinedWords_eq, hwords]
  have hcard_ne : ((combinedWords (o.map fun s => s.text)).card : ℚ) ≠ 0 := by
    rw [Nat.cast_ne_zero]
    intro hz
    exact hword (Finset.card_eq_zero.1 hz)
  have htext100 : textCoveragePct (o.map fun s => s.text) (p.map fun c => c.text) = 100 := by
    simp only [textCoveragePct]
    rw [if_pos hword, htext_eq, Finset.inter_self, div_self hcard_ne]
    norm_num
  refine ⟨assembledReport o p subTL chTL,
    (validate_ok_iff o p _ ho hpne).2 ⟨subTL, chTL, hs, hc, htot_ne, rfl⟩, ?_, ?_, ?_, ?_⟩
  · show verdict ((markedSubtitles subTL chTL).filter fun s => !s.covered)
      (textCoveragePct (o.map fun s => s.text) (p.map fun c => c.text))
      (coveredDuration subTL chTL / totalSubtitleDuration subTL * 100) = true
    rw [hmiss, htext100, htl, verdict, decide_eq_true_eq]
    refine ⟨rfl, by norm_num, by norm_num, ?_⟩
    rw [mkErrors]
    norm_num
  · exact hmiss
  · exact htext100
  · exact htl

/-- Witness for the amended C5: two contiguous cues 0-1 s "a" and 1-2 s
"b", partitioned into the single chunk 0-2 s "a b", yield a fully covered
report. -/
theorem c5_amended_full_coverage_witness :
    ∃ r, validate_chunk_coverage
        [{ start := "0", stop := "1", text := "a" }, { start := "1", stop := "2", text := "b" }]
        [{ start := "0", stop := "2", text := "a b" }] = .ok r ∧
      r.coverage_complete = true ∧ r.missing_subtitles = [] ∧
      r.text_coverage_percentage = 100 ∧ r.timeline_coverage_percentage = 100 := by
  have hsub : buildSubTimeline 0
      [{ start := "0", stop := "1", text := "a" }, { start := "1", stop := "2", text := "b" }] =
      .ok [{ index := 0, start := 0, stop := 1, text := "a", covered := false },
           { index := 1, start := 1, stop := 2, text := "b", covered := false }] := by
    simp [buildSubTimeline, parse_ts_zero, parse_ts_one, parse_ts_two, Except.map]
  have hch : buildChunkTimeline 0 [{ start := "0", stop := "2", text := "a b" }] =
      .ok [{ index := 0, start := 0, stop := 2, text := "a b" }] := by
    simp [buildChunkTimeline, parse_ts_zero, parse_ts_two, Except.map]
  refine c5_amended_full_coverage _ _ _ _
    [[{ index := 0, start := 0, stop := 1, text := "a", covered := false },
      { index := 1, start := 1, stop := 2, text := "b", covered := false }]]
    (by simp) hsub hch ?_ ?_ (by simp) (by simp) ?_ (by decide)
  · intro s hs
    rcases List.mem_cons.1 hs with hs | hs
    · subst hs
      norm_num
    · rcases List.mem_cons.1 hs with hs | hs
      · subst hs
        norm_num
      · exact absurd hs (by simp)
  · refine List.chain'_cons.2 ⟨rfl, ?_⟩
    simp
  · refine List.Forall₂.cons ⟨rfl, rfl, ?_⟩ List.Forall₂.nil
    decide

/-- Claim C6 as amended: for every supported textual timestamp form built
from nonempty digit groups — H:MM:SS.mmm with `.` or `,`, M:SS.mmm, bare
integer seconds, bare decimal seconds — `parse_timestamp` returns
hours*3600 + minutes*60 + seconds + frac/1000 in the colon forms, where
`frac` is the fractional digit group read as an INTEGER (a millisecond
count, so the decimal-fraction reading of the claim only agrees when the
group has exactly three digits), and the plain decimal value in the bare
form. -/
theorem c6_amended_parse_timestamp (a b c d : List Char)
    (hane : a ≠ []) (had : ∀ ch ∈ a, ch.isDigit = true)
    (hbne : b ≠ []) (hbd : ∀ ch ∈ b, ch.isDigit = true)
    (hcne : c ≠ []) (hcd : ∀ ch ∈ c, ch.isDigit = true)
    (hdne : d ≠ []) (hdd : ∀ ch ∈ d, ch.isDigit = true) :
    parse_timestamp (String.mk (a ++ ':' :: (b ++ ':' :: (c ++ '.' :: d)))) =
      some ((digitsVal a : ℚ) * 3600 + (digitsVal b : ℚ) * 60 + (digitsVal c : ℚ)
        + (digitsVal d : ℚ) / 1000) ∧
    parse_timestamp (String.mk (a ++ ':' :: (b ++ ':' :: (c ++ ',' :: d)))) =
      some ((digitsVal a : ℚ) * 3600 + (digitsVal b : ℚ) * 60 + (digitsVal c : ℚ)
        + (digitsVal d : ℚ) / 1000) ∧
    parse_timestamp (String.mk (b ++ ':' :: (c ++ '.' :: d))) =
      some ((digitsVal b : ℚ) * 60 + (digitsVal c : ℚ) + (digitsVal d : ℚ) / 1000) ∧
    parse_timestamp (String.mk c) = some (digitsVal c : ℚ) ∧
    parse_timestamp (String.mk (c ++ '.' :: d)) =
      some ((digitsVal c : ℚ) + (digitsVal d : ℚ) / (10 : ℚ) ^ d.length) := by
  have hma : a.map commaToPeriod = a :=
    map_commaToPeriod_no_comma a (not_mem_of_all_digit ',' a had (by decide))
  have hmb : b.map commaToPeriod = b :=
    map_commaToPeriod_no_comma b (not_mem_of_all_digit ',' b hbd (by decide))
  have hmc : c.map commaToPeriod = c :=
    map_commaToPeriod_no_comma c (not_mem_of_all_digit ',' c hcd (by decide))
  have hmd : d.map commaToPeriod = d :=
    map_commaToPeriod_no_comma d (not_mem_of_all_digit ',' d hdd (by decide))
  have hcolon : commaToPeriod ':' = ':' := by decide
  have hdot : commaToPeriod '.' = '.' := by decide
  have hcomma : commaToPeriod ',' = '.' := by decide
  refine ⟨?_, ?_, ?_, ?_, ?_⟩
  · rw [parse_timestamp]
    have hdata : (String.mk (a ++ ':' :: (b ++ ':' :: (c ++ '.' :: d)))).data.map
        commaToPeriod = a ++ ':' :: (b ++ ':' :: (c ++ '.' :: d)) := by
      show (a ++ ':' :: (b ++ ':' :: (c ++ '.' :: d))).map commaToPeriod = _
      simp only [List.map_append, List.map_cons, hma, hmb, hmc, hmd, hcolon, hdot]
    rw [hdata, scanTimestamp_two_colon a b c d hane had hbne hbd hcne hcd hdne hdd,
      Option.map_some']
    simp only [tsValue]
    push_cast
    ring_nf
  · rw [parse_timestamp]
    have hdata : (String.mk (a ++ ':' :: (b ++ ':' :: (c ++ ',' :: d)))).data.map
        commaToPeriod = a ++ ':' :: (b ++ ':' :: (c ++ '.' :: d)) := by
      show (a ++ ':' :: (b ++ ':' :: (c ++ ',' :: d))).map commaToPeriod = _
      simp only [List.map_append, List.map_cons, hma, hmb, hmc, hmd, hcolon, hcomma]
    rw [hdata, scanTimestamp_two_colon a b c d hane had hbne hbd hcne hcd hdne hdd,
      Option.map_some']
    simp only [tsValue]
    push_cast
    ring_nf
  · rw [parse_timestamp]
    have hdata : (String.mk (b ++ ':' :: (c ++ '.' :: d))).data.map
        commaToPeriod = b ++ ':' :: (c ++ '.' :: d) := by
      show (b ++ ':' :: (c ++ '.' :: d)).map commaToPeriod = _
      simp only [List.map_append, List.map_cons, hmb, hmc, hmd, hcolon, hdot]
    rw [hdata, scanTimestamp_one_colon b c d hbne hbd hcne hcd hdne hdd,
      Option.map_some']
    simp only [tsValue]
    push_cast
    ring_nf
  · rw [parse_timestamp]
    have hdata : (String.mk c).data.map commaToPeriod = c := by
      show c.map commaToPeriod = c
      exact hmc
    rw [hdata, scanTimestamp_bare_int c hcne hcd, Option.map_some']
    simp only [tsValue]
    norm_num
  · rw [parse_timestamp]
    have hdata : (String.mk (c ++ '.' :: d)).data.map commaToPeriod = c ++ '.' :: d := by
      show (c ++ '.' :: d).map commaToPeriod = _
      simp only [List.map_append, List.map_cons, hmc, hmd, hdot]
    rw [hdata, scanTimestamp_bare_frac c d hcne hcd hdd, Option.map_some']
    simp only [tsValue]
    norm_num

/-- Witness for the amended C6: the forms instantiated at "0:01:05.500",
"0:01:05,500", "01:05.500", "05" and "05.500". -/
theorem c6_amended_parse_timestamp_witness :
    parse_timestamp (String.mk (['0'] ++ ':' :: (['0', '1'] ++ ':' ::
        (['0', '5'] ++ '.' :: ['5', '0', '0'])))) =
      some ((digitsVal ['0'] : ℚ) * 3600 + (digitsVal ['0', '1'] : ℚ) * 60
        + (digitsVal ['0', '5'] : ℚ) + (digitsVal ['5', '0', '0'] : ℚ) / 1000) :=
  (c6_amended_parse_timestamp ['0'] ['0', '1'] ['0', '5'] ['5', '0', '0']
    (by decide) (by decide) (by decide) (by decide)
    (by decide) (by decide) (by decide) (by decide)).1

/-- Claim C10: the returned `timeline_coverage_percentage` is not bounded
by 100: with one cue spanning 0-10 s and two identical chunks spanning
0-10 s, the overlap is accumulated once per chunk-cue pair and the
reported percentage is 200. -/
theorem c10_timeline_pct_exceeds_100 :
    (validate_chunk_coverage [{ start := "0", stop := "10", text := "a" }]
      [{ start := "0", stop := "10", text := "a" },
       { start := "0", stop := "10", text := "a" }]).map
        (fun r => r.timeline_coverage_percentage) = .ok 200 ∧
    (100 : ℚ) < 200 := by
  refine ⟨?_, by norm_num⟩
  have hsub : buildSubTimeline 0 [{ start := "0", stop := "10", text := "a" }] =
      .ok [{ index := 0, start := 0, stop := 10, text := "a", covered := false }] := by
    simp [buildSubTimeline, parse_ts_zero, parse_ts_ten, Except.map]
  have hch : buildChunkTimeline 0
      [{ start := "0", stop := "10", text := "a" }, { start := "0", stop := "10", text := "a" }] =
      .ok [{ index := 0, start := 0, stop := 10, text := "a" },
           { index := 1, start := 0, stop := 10, text := "a" }] := by
    simp [buildChunkTimeline, parse_ts_zero, parse_ts_ten, Except.map]
  rw [validate_chunk_coverage_nonempty _ _ (by simp) (by simp), hsub]
  simp only [Except.bind, hch]
  have htot : totalSubtitleDuration
      [{ index := 0, start := 0, stop := 10, text := "a", covered := false }] = 10 := by
    norm_num [totalSubtitleDuration, sortByKey, insertByKey]
  rw [validateCore, if_neg (by rw [htot]; norm_num)]
  have hcov : coveredDuration
      [{ index := 0, start := 0, stop := 10, text := "a", covered := false }]
      [{ index := 0, start := 0, stop := 10, text := "a" },
       { index := 1, start := 0, stop := 10, text := "a" }] = 20 := by
    norm_num [coveredDuration, sortByKey, insertByKey, coverAll, coverWithChunk,
      overlapContribution]
  simp only [Except.map, assembledReport]
  rw [hcov, htot]
  norm_num

/-- Claim C4: with an empty cue list (for any chunk list), and with an
empty chunk list (for any nonempty cue list), `validate_chunk_coverage`
returns immediately — no analyzer output, no exception — a report equal to
the fresh report plus the single guard error message; that report has
`coverage_complete = false`, both percentages 0, and a nonempty `errors`
list containing the documented message. -/
theorem c4_empty_input_guards (subs chunks : List RawSub) (hs : subs ≠ []) :
    validate_chunk_coverage [] chunks =
      .ok { emptyReport with errors := ["No original subtitles provided"] } ∧
    validate_chunk_coverage subs [] =
      .ok { emptyReport with errors := ["No processed chunks provided"] } ∧
    ({ emptyReport with errors := ["No original subtitles provided"] }
      : ValidationReport).coverage_complete = false ∧
    ({ emptyReport with errors := ["No original subtitles provided"] }
      : ValidationReport).text_coverage_percentage = 0 ∧
    ({ emptyReport with errors := ["No original subtitles provided"] }
      : ValidationReport).timeline_coverage_percentage = 0 ∧
    ({ emptyReport with errors := ["No original subtitles provided"] }
      : ValidationReport).errors ≠ [] ∧
    "No original subtitles provided" ∈
      ({ emptyReport with errors := ["No original subtitles provided"] }
        : ValidationReport).errors ∧
    ({ emptyReport with errors := ["No processed chunks provided"] }
      : ValidationReport).coverage_complete = false ∧
    ({ emptyReport with errors := ["No processed chunks provided"] }
      : ValidationReport).text_coverage_percentage = 0 ∧
    ({ emptyReport with errors := ["No processed chunks provided"] }
      : ValidationReport).timeline_coverage_percentage = 0 ∧
    ({ emptyReport with errors := ["No processed chunks provided"] }
      : ValidationReport).errors ≠ [] ∧
    "No processed chunks provided" ∈
      ({ emptyReport with errors := ["No processed chunks provided"] }
        : ValidationReport).errors := by
  refine ⟨?_, ?_, rfl, rfl, rfl, by simp, by simp, rfl, rfl, rfl, by simp, by simp⟩
  · rw [validate_chunk_coverage]
    simp
  · rw [validate_chunk_coverage]
    rw [if_neg (by simp [List.isEmpty_iff, hs])]
    simp

/-- Witness for C4: both guards instantiated on a concrete nonempty list. -/
theorem c4_empty_input_guards_witness :
    validate_chunk_coverage [] [{ start := "0", stop := "1", text := "a" }] =
      .ok { emptyReport with errors := ["No original subtitles provided"] } ∧
    validate_chunk_coverage [{ start := "0", stop := "1", text := "a" }] [] =
      .ok { emptyReport with errors := ["No processed chunks provided"] } := by
  have h := c4_empty_input_guards [{ start := "0", stop := "1", text := "a" }]
    [{ start := "0", stop := "1", text := "a" }] (by simp)
  exact ⟨h.1, h.2.1⟩

/-- Counterexample to claim C1: a nonempty cue list and nonempty chunk
list whose timestamps all parse, in which every cue has end equal to
start (so the overall cue time span is zero), makes
`validate_chunk_coverage` raise `ZeroDivisionError` at the
timeline-coverage division instead of returning a report. -/
theorem c1_counterexample :
    validate_chunk_coverage [{ start := "0", stop := "0", text := "a" }]
      [{ start := "0", stop := "0", text := "a" }] = .error .zeroDivisionError ∧
    parse_timestamp "0" = some 0 := by
  refine ⟨?_, parse_ts_zero⟩
  have hsub : buildSubTimeline 0 [{ start := "0", stop := "0", text := "a" }] =
      .ok [{ index := 0, start := 0, stop := 0, text := "a", covered := false }] := by
    simp [buildSubTimeline, parse_ts_zero, Except.map]
  have hch : buildChunkTimeline 0 [{ start := "0", stop := "0", text := "a" }] =
      .ok [{ index := 0, start := 0, stop := 0, text := "a" }] := by
    simp [buildChunkTimeline, parse_ts_zero, Except.map]
  rw [validate_chunk_coverage_nonempty _ _ (by simp) (by simp), hsub]
  simp only [Except.bind, hch]
  rw [validateCore, if_pos]
  norm_num [totalSubtitleDuration, sortByKey, insertByKey]

/-- Counterexample to claim C2: the claim divides by (maximum cue end −
minimum cue start), but line 109 of the source divides by the end of the
cue that sorts LAST BY START TIME.  With cues 0-100 s and 1-2 s and one
chunk 0-2 s, the accumulated covered duration is 3 s, the maximum cue end
is 100 and the minimum cue start is 0, so the claim predicts
3 / (100 - 0) * 100 = 3, yet the code returns 150. -/
theorem c2_counterexample :
    (validate_chunk_coverage
        [{ start := "0", stop := "100", text := "a" },
         { start := "1", stop := "2", text := "a" }]
        [{ start := "0", stop := "2", text := "a" }]).map
      (fun r => r.timeline_coverage_percentage) = .ok 150 ∧
    coveredDuration
      [{ index := 0, start := 0, stop := 100, text := "a", covered := false },
       { index := 1, start := 1, stop := 2, text := "a", covered := false }]
      [{ index := 0, start := 0, stop := 2, text := "a" }] = 3 ∧
    buildSubTimeline 0
      [{ start := "0", stop := "100", text := "a" },
       { start := "1", stop := "2", text := "a" }] =
      .ok [{ index := 0, start := 0, stop := 100, text := "a", covered := false },
           { index := 1, start := 1, stop := 2, text := "a", covered := false }] ∧
    (∀ s ∈ [({ index := 0, start := 0, stop := 100, text := "a", covered := false } : TimedSub),
            { index := 1, start := 1, stop := 2, text := "a", covered := false }],
        s.stop ≤ 100 ∧ 0 ≤ s.start) ∧
    (150 : ℚ) ≠ 3 / (100 - 0) * 100 := by
  have hsub : buildSubTimeline 0
      [{ start := "0", stop := "100", text := "a" },
       { start := "1", stop := "2", text := "a" }] =
      .ok [{ index := 0, start := 0, stop := 100, text := "a", covered := false },
           { index := 1, start := 1, stop := 2, text := "a", covered := false }] := by
    simp [buildSubTimeline, parse_ts_zero, parse_ts_one, parse_ts_two, parse_ts_hundred,
      Except.map]
  have hch : buildChunkTimeline 0 [{ start := "0", stop := "2", text := "a" }] =
      .ok [{ index := 0, start := 0, stop := 2, text := "a" }] := by
    simp [buildChunkTimeline, parse_ts_zero, parse_ts_two, Except.map]
  have hcov : coveredDuration
      [{ index := 0, start := 0, stop := 100, text := "a", covered := false },
       { index := 1, start := 1, stop := 2, text := "a", covered := false }]
      [{ index := 0, start := 0, stop := 2, text := "a" }] = 3 := by
    norm_num [coveredDuration, sortByKey, insertByKey, coverAll, coverWithChunk,
      overlapContribution]
  refine ⟨?_, hcov, hsub, by norm_num, by norm_num⟩
  rw [validate_chunk_coverage_nonempty _ _ (by simp) (by simp), hsub]
  simp only [Except.bind, hch]
  have htot : totalSubtitleDuration
      [{ index := 0, start := 0, stop := 100, text := "a", covered := false },
       { index := 1, start := 1, stop := 2, text := "a", covered := false }] = 2 := by
    norm_num [totalSubtitleDuration, sortByKey, insertByKey]
  rw [validateCore, if_neg (by rw [htot]; norm_num)]
  simp only [Except.map, assembledReport]
  rw [hcov, htot]
  norm_num

/-- Claim C2 as amended: the returned `timeline_coverage_percentage`
equals the accumulated covered duration divided by the time span of
line 109, times 100 — where that span is (end of the cue that sorts last
by start time) minus (minimum cue start time), the minuend being the end
of the last start-sorted cue rather than the maximum cue end. -/
theorem c2_amended_timeline_pct_formula (o p : List RawSub) (r : ValidationReport)
    (ho : o ≠ []) (hp : p ≠ []) (h : validate_chunk_coverage o p = .ok r) :
    ∃ subTL chTL, buildSubTimeline 0 o = .ok subTL ∧ buildChunkTimeline 0 p = .ok chTL ∧
      r.timeline_coverage_percentage =
        coveredDuration subTL chTL / totalSubtitleDuration subTL * 100 ∧
      totalSubtitleDuration subTL =
        ((sortByKey (fun s => s.start) subTL).getLastD defaultTimedSub).stop -
        ((sortByKey (fun s => s.start) subTL).headD defaultTimedSub).start ∧
      (∀ s ∈ subTL,
        ((sortByKey (fun s => s.start) subTL).headD defaultTimedSub).start ≤ s.start) := by
  rcases (validate_ok_iff o p r ho hp).1 h with ⟨subTL, chTL, h1, h2, _, hr⟩
  subst hr
  refine ⟨subTL, chTL, h1, h2, rfl, rfl, ?_⟩
  intro s hs
  exact sortByKey_headD_key_le (fun s => s.start) subTL defaultTimedSub s hs

/-- Witness for the amended C2: the counterexample input instantiated in
the amended formula. -/
theorem c2_amended_timeline_pct_formula_witness :
    ∃ r, validate_chunk_coverage
        [{ start := "0", stop := "100", text := "a" },
         { start := "1", stop := "2", text := "a" }]
        [{ start := "0", stop := "2", text := "a" }] = .ok r ∧
      ∃ subTL chTL,
        buildSubTimeline 0
          [{ start := "0", stop := "100", text := "a" },
           { start := "1", stop := "2", text := "a" }] = .ok subTL ∧
        buildChunkTimeline 0 [{ start := "0", stop := "2", text := "a" }] = .ok chTL ∧
        r.timeline_coverage_percentage =
          coveredDuration subTL chTL / totalSubtitleDuration subTL * 100 ∧
        totalSubtitleDuration subTL =
          ((sortByKey (fun s => s.start) subTL).getLastD defaultTimedSub).stop -
          ((sortByKey (fun s => s.start) subTL).headD defaultTimedSub).start ∧
        (∀ s ∈ subTL,
          ((sortByKey (fun s => s.start) subTL).headD defaultTimedSub).start ≤ s.start) := by
  have hsub : buildSubTimeline 0
      [{ start := "0", stop := "100", text := "a" },
       { start := "1", stop := "2", text := "a" }] =
      .ok [{ index := 0, start := 0, stop := 100, text := "a", covered := false },
           { index := 1, start := 1, stop := 2, text := "a", covered := false }] := by
    simp [buildSubTimeline, parse_ts_zero, parse_ts_one, parse_ts_two, parse_ts_hundred,
      Except.map]
  have hch : buildChunkTimeline 0 [{ start := "0", stop := "2", text := "a" }] =
      .ok [{ index := 0, start := 0, stop := 2, text := "a" }] := by
    simp [buildChunkTimeline, parse_ts_zero, parse_ts_two, Except.map]
  have hok : validate_chunk_coverage
      [{ start := "0", stop := "100", text := "a" },
       { start := "1", stop := "2", text := "a" }]
      [{ start := "0", stop := "2", text := "a" }] =
      .ok (assembledReport
        [{ start := "0", stop := "100", text := "a" },
         { start := "1", stop := "2", text := "a" }]
        [{ start := "0", stop := "2", text := "a" }]
        [{ index := 0, start := 0, stop := 100, text := "a", covered := false },
         { index := 1, start := 1, stop := 2, text := "a", covered := false }]
        [{ index := 0, start := 0, stop := 2, text := "a" }]) := by
    refine (validate_ok_iff _ _ _ (by simp) (by simp)).2 ⟨_, _, hsub, hch, ?_, rfl⟩
    norm_num [totalSubtitleDuration, sortByKey, insertByKey]
  exact ⟨_, hok,
    c2_amended_timeline_pct_formula _ _ _ (by simp) (by simp) hok⟩

/-- Claim C1 as amended: for every nonempty cue list and nonempty chunk
list whose timestamps parse, `validate_chunk_coverage` returns a report —
raises no exception — whenever the start-sorted cue time span of line 109
is nonzero; when that span is zero (in particular when every cue has end
equal to start and a common start time) it raises `ZeroDivisionError` at
the timeline-coverage division instead of degrading to a reported
error. -/
theorem c1_amended_no_raise (o p : List RawSub) (subTL : List TimedSub)
    (chTL : List TimedChunk) (ho : o ≠ []) (hp : p ≠ [])
    (hs : buildSubTimeline 0 o = .ok subTL) (hc : buildChunkTimeline 0 p = .ok chTL) :
    (totalSubtitleDuration subTL ≠ 0 → ∃ r, validate_chunk_coverage o p = .ok r) ∧
    (totalSubtitleDuration subTL = 0 →
      validate_chunk_coverage o p = .error .zeroDivisionError) := by
  rw [validate_chunk_coverage_nonempty o p ho hp, hs]
  simp only [Except.bind, hc]
  constructor
  · intro h
    exact ⟨_, by rw [validateCore, if_neg h]⟩
  · intro h
    rw [validateCore, if_pos h]

/-- Witness for the amended C1: a concrete nonempty input with nonzero
span returns a report, and the zero-span counterexample input raises. -/
theorem c1_amended_no_raise_witness :
    ∃ r, validate_chunk_coverage [{ start := "0", stop := "10", text := "a" }]
      [{ start := "0", stop := "10", text := "a" }] = .ok r := by
  have hsub : buildSubTimeline 0 [{ start := "0", stop := "10", text := "a" }] =
      .ok [{ index := 0, start := 0, stop := 10, text := "a", covered := false }] := by
    simp [buildSubTimeline, parse_ts_zero, parse_ts_ten, Except.map]
  have hch : buildChunkTimeline 0 [{ start := "0", stop := "10", text := "a" }] =
      .ok [{ index := 0, start := 0, stop := 10, text := "a" }] := by
    simp [buildChunkTimeline, parse_ts_zero, parse_ts_ten, Except.map]
  exact (c1_amended_no_raise _ _ _ _ (by simp) (by simp) hsub hch).1
    (by norm_num [totalSubtitleDuration, sortByKey, insertByKey])

/-- Claim C3: on every nonempty cue list and nonempty chunk list for which
a report is returned, `coverage_complete` holds exactly when the missing
list is empty, both coverage percentages are at least 95, and the `errors`
list is empty. -/
theorem c3_verdict_conjunction (o p : List RawSub) (r : ValidationReport)
    (ho : o ≠ []) (hp : p ≠ []) (h : validate_chunk_coverage o p = .ok r) :
    r.coverage_complete = true ↔
      (r.missing_subtitles = [] ∧ r.text_coverage_percentage ≥ 95 ∧
       r.timeline_coverage_percentage ≥ 95 ∧ r.errors = []) := by
  rcases (validate_ok_iff o p r ho hp).1 h with ⟨subTL, chTL, _, _, _, hr⟩
  subst hr
  simp only [assembledReport, verdict]
  simp [decide_eq_true_eq, and_assoc]

/-- Witness for C3: a concrete run on one cue and one chunk, with the
verdict equivalence instantiated there. -/
theorem c3_verdict_conjunction_witness :
    ∃ r, validate_chunk_coverage [{ start := "0", stop := "10", text := "a" }]
        [{ start := "0", stop := "10", text := "a" }] = .ok r ∧
      (r.coverage_complete = true ↔
        (r.missing_subtitles = [] ∧ r.text_coverage_percentage ≥ 95 ∧
         r.timeline_coverage_percentage ≥ 95 ∧ r.errors = [])) := by
  have hsub : buildSubTimeline 0 [{ start := "0", stop := "10", text := "a" }] =
      .ok [{ index := 0, start := 0, stop := 10, text := "a", covered := false }] := by
    simp [buildSubTimeline, parse_ts_zero, parse_ts_ten, Except.map]
  have hch : buildChunkTimeline 0 [{ start := "0", stop := "10", text := "a" }] =
      .ok [{ index := 0, start := 0, stop := 10, text := "a" }] := by
    simp [buildChunkTimeline, parse_ts_zero, parse_ts_ten, Except.map]
  have hok : validate_chunk_coverage [{ start := "0", stop := "10", text := "a" }]
      [{ start := "0", stop := "10", text := "a" }] =
      .ok (assembledReport [{ start := "0", stop := "10", text := "a" }]
        [{ start := "0", stop := "10", text := "a" }]
        [{ index := 0, start := 0, stop := 10, text := "a", covered := false }]
        [{ index := 0, start := 0, stop := 10, text := "a" }]) := by
    refine (validate_ok_iff _ _ _ (by simp) (by simp)).2 ⟨_, _, hsub, hch, ?_, rfl⟩
    norm_num [totalSubtitleDuration, sortByKey, insertByKey]
  exact ⟨_, hok, c3_verdict_conjunction _ _ _ (by simp) (by simp) hok⟩

/-- Claim C8: the duplicate detector considers every unordered pair of
chunks (i < j) of the processed chunk list, skips a pair when either
normalized word set is empty, and reports exactly the pairs whose Jaccard
similarity of normalized word sets strictly exceeds 1/2, with the
similarity as `overlap_ratio`; consequently two chunks with identical
nonempty text are reported with ratio 1, and a reported pair always
shares at least one word. -/
theorem c8_duplicate_detector (o p : List RawSub) (r : ValidationReport)
    (ho : o ≠ []) (hp : p ≠ []) (h : validate_chunk_coverage o p = .ok r) :
    (∀ d : DuplicatePair, d ∈ r.duplicate_content ↔
      ∃ a k, a < k ∧ k < p.length ∧
        wordSet (normalizeChars ((p.getD a defaultRawSub).text.data)) ≠ ∅ ∧
        wordSet (normalizeChars ((p.getD k defaultRawSub).text.data)) ≠ ∅ ∧
        ((wordSet (normalizeChars ((p.getD a defaultRawSub).text.data)) ∩
            wordSet (normalizeChars ((p.getD k defaultRawSub).text.data))).card : ℚ) /
          ((wordSet (normalizeChars ((p.getD a defaultRawSub).text.data)) ∪
            wordSet (normalizeChars ((p.getD k defaultRawSub).text.data))).card : ℚ) > 1/2 ∧
        d = { chunk1 := a, chunk2 := k,
              overlap_ratio :=
                ((wordSet (normalizeChars ((p.getD a defaultRawSub).text.data)) ∩
                    wordSet (normalizeChars ((p.getD k defaultRawSub).text.data))).card : ℚ) /
                  ((wordSet (normalizeChars ((p.getD a defaultRawSub).text.data)) ∪
                    wordSet (normalizeChars ((p.getD k defaultRawSub).text.data))).card : ℚ) }) ∧
    (∀ a b, a < b → b < p.length →
      (p.getD a defaultRawSub).text = (p.getD b defaultRawSub).text →
      wordSet (normalizeChars ((p.getD a defaultRawSub).text.data)) ≠ ∅ →
      ({ chunk1 := a, chunk2 := b, overlap_ratio := 1 } : DuplicatePair) ∈
        r.duplicate_content) ∧
    (∀ d : DuplicatePair, d ∈ r.duplicate_content →
      wordSet (normalizeChars ((p.getD d.chunk1 defaultRawSub).text.data)) ∩
        wordSet (normalizeChars ((p.getD d.chunk2 defaultRawSub).text.data)) ≠ ∅) := by
  rcases (validate_ok_iff o p r ho hp).1 h with ⟨subTL, chTL, _, _, _, hr⟩
  subst hr
  have hiff : ∀ d : DuplicatePair,
      d ∈ (assembledReport o p subTL chTL).duplicate_content ↔
      ∃ a k, a < k ∧ k < p.length ∧
        wordSet (normalizeChars ((p.getD a defaultRawSub).text.data)) ≠ ∅ ∧
        wordSet (normalizeChars ((p.getD k defaultRawSub).text.data)) ≠ ∅ ∧
        ((wordSet (normalizeChars ((p.getD a defaultRawSub).text.data)) ∩
            wordSet (normalizeChars ((p.getD k defaultRawSub).text.data))).card : ℚ) /
          ((wordSet (normalizeChars ((p.getD a defaultRawSub).text.data)) ∪
            wordSet (normalizeChars ((p.getD k defaultRawSub).text.data))).card : ℚ) > 1/2 ∧
        d = { chunk1 := a, chunk2 := k,
              overlap_ratio :=
                ((wordSet (normalizeChars ((p.getD a defaultRawSub).text.data)) ∩
                    wordSet (normalizeChars ((p.getD k defaultRawSub).text.data))).card : ℚ) /
                  ((wordSet (normalizeChars ((p.getD a defaultRawSub).text.data)) ∪
                    wordSet (normalizeChars ((p.getD k defaultRawSub).text.data))).card : ℚ) } := by
    intro d
    show d ∈ findDuplicates 0 (p.map fun c => normalizeChars c.text.data) ↔ _
    rw [findDuplicates_mem]
    constructor
    · rintro ⟨a, k, hak, hk, h1, h2, h3, h4⟩
      have hk2 : k < p.length := by simpa using hk
      have ha2 : a < p.length := lt_trans hak hk2
      simp only [getD_map_normalize p a ha2, getD_map_normalize p k hk2,
        Nat.zero_add] at h1 h2 h3 h4
      exact ⟨a, k, hak, hk2, h1, h2, h3, h4⟩
    · rintro ⟨a, k, hak, hk2, h1, h2, h3, h4⟩
      have ha2 : a < p.length := lt_trans hak hk2
      refine ⟨a, k, hak, by simpa using hk2, ?_, ?_, ?_, ?_⟩ <;>
        simp only [getD_map_normalize p a ha2, getD_map_normalize p k hk2, Nat.zero_add]
      · exact h1
      · exact h2
      · exact h3
      · exact h4
  refine ⟨hiff, ?_, ?_⟩
  · intro a b hab hb htext hne
    refine (hiff _).2 ⟨a, b, hab, hb, hne, ?_, ?_, ?_⟩
    · rw [← htext]
      exact hne
    · rw [← htext, Finset.inter_self, Finset.union_self]
      have hcard : ((wordSet (normalizeChars ((p.getD a defaultRawSub).text.data))).card : ℚ) ≠ 0 := by
        rw [Nat.cast_ne_zero]
        intro hz
        exact hne (Finset.card_eq_zero.1 hz)
      rw [div_self hcard]
      norm_num
    · rw [← htext, Finset.inter_self, Finset.union_self]
      have hcard : ((wordSet (normalizeChars ((p.getD a defaultRawSub).text.data))).card : ℚ) ≠ 0 := by
        rw [Nat.cast_ne_zero]
        intro hz
        exact hne (Finset.card_eq_zero.1 hz)
      rw [div_self hcard]
  · intro d hd
    rcases (hiff d).1 hd with ⟨a, k, hak, hk, h1, h2, h3, h4⟩
    intro hzero
    rw [h4] at hzero
    simp only at hzero
    rw [hzero, Finset.card_empty, Nat.cast_zero, zero_div] at h3
    norm_num at h3

/-- Witness for C8: two identical chunks of text "a" are reported as a
duplicate pair with ratio 1, as the instantiated characterization shows. -/
theorem c8_duplicate_detector_witness :
    ∃ r, validate_chunk_coverage [{ start := "0", stop := "10", text := "a" }]
        [{ start := "0", stop := "10", text := "a" },
         { start := "0", stop := "10", text := "a" }] = .ok r ∧
      ({ chunk1 := 0, chunk2 := 1, overlap_ratio := 1 } : DuplicatePair) ∈
        r.duplicate_content := by
  have hsub : buildSubTimeline 0 [{ start := "0", stop := "10", text := "a" }] =
      .ok [{ index := 0, start := 0, stop := 10, text := "a", covered := false }] := by
    simp [buildSubTimeline, parse_ts_zero, parse_ts_ten, Except.map]
  have hch : buildChunkTimeline 0
      [{ start := "0", stop := "10", text := "a" }, { start := "0", stop := "10", text := "a" }] =
      .ok [{ index := 0, start := 0, stop := 10, text := "a" },
           { index := 1, start := 0, stop := 10, text := "a" }] := by
    simp [buildChunkTimeline, parse_ts_zero, parse_ts_ten, Except.map]
  have hok : validate_chunk_coverage [{ start := "0", stop := "10", text := "a" }]
      [{ start := "0", stop := "10", text := "a" },
       { start := "0", stop := "10", text := "a" }] =
      .ok (assembledReport [{ start := "0", stop := "10", text := "a" }]
        [{ start := "0", stop := "10", text := "a" },
         { start := "0", stop := "10", text := "a" }]
        [{ index := 0, start := 0, stop := 10, text := "a", covered := false }]
        [{ index := 0, start := 0, stop := 10, text := "a" },
         { index := 1, start := 0, stop := 10, text := "a" }]) := by
    refine (validate_ok_iff _ _ _ (by simp) (by simp)).2 ⟨_, _, hsub, hch, ?_, rfl⟩
    norm_num [totalSubtitleDuration, sortByKey, insertByKey]
  refine ⟨_, hok, ?_⟩
  have hc8 := c8_duplicate_detector [{ start := "0", stop := "10", text := "a" }]
    [{ start := "0", stop := "10", text := "a" },
     { start := "0", stop := "10", text := "a" }] _ (by simp) (by simp) hok
  refine hc8.2.1 0 1 (by norm_num) (by norm_num) (by simp) ?_
  have : wordSet (normalizeChars "a".data) = {['a']} := by decide
  simp only [List.getD_cons_zero]
  rw [this]
  simp

/-- Claim C9: on every returned report for nonempty inputs, the `warnings`
list is a function of the gap, overlap and duplicate lists alone, while
the `errors` list and the `coverage_complete` verdict are functions of the
missing list and the two percentages alone — so gaps, overlaps and
duplicates only ever feed `warnings` and never affect `errors` or the
verdict. -/
theorem c9_advisory_findings_only_warn (o p : List RawSub) (r : ValidationReport)
    (ho : o ≠ []) (hp : p ≠ []) (h : validate_chunk_coverage o p = .ok r) :
    r.warnings = mkWarnings r.gaps_in_timeline r.overlapping_chunks r.duplicate_content ∧
    r.errors = mkErrors r.missing_subtitles r.text_coverage_percentage
      r.timeline_coverage_percentage ∧
    r.coverage_complete = verdict r.missing_subtitles r.text_coverage_percentage
      r.timeline_coverage_percentage := by
  rcases (validate_ok_iff o p r ho hp).1 h with ⟨subTL, chTL, _, _, _, hr⟩
  subst hr
  exact ⟨rfl, rfl, rfl⟩

/-- Witness for C9: the same concrete run as for C3, with the three
equalities instantiated there. -/
theorem c9_advisory_findings_only_warn_witness :
    ∃ r, validate_chunk_coverage [{ start := "0", stop := "10", text := "a" }]
        [{ start := "0", stop := "10", text := "a" }] = .ok r ∧
      r.warnings = mkWarnings r.gaps_in_timeline r.overlapping_chunks r.duplicate_content ∧
      r.errors = mkErrors r.missing_subtitles r.text_coverage_percentage
        r.timeline_coverage_percentage ∧
      r.coverage_complete = verdict r.missing_subtitles r.text_coverage_percentage
        r.timeline_coverage_percentage := by
  have hsub : buildSubTimeline 0 [{ start := "0", stop := "10", text := "a" }] =
      .ok [{ index := 0, start := 0, stop := 10, text := "a", covered := false }] := by
    simp [buildSubTimeline, parse_ts_zero, parse_ts_ten, Except.map]
  have hch : buildChunkTimeline 0 [{ start := "0", stop := "10", text := "a" }] =
      .ok [{ index := 0, start := 0, stop := 10, text := "a" }] := by
    simp [buildChunkTimeline, parse_ts_zero, parse_ts_ten, Except.map]
  have hok : validate_chunk_coverage [{ start := "0", stop := "10", text := "a" }]
      [{ start := "0", stop := "10", text := "a" }] =
      .ok (assembledReport [{ start := "0", stop := "10", text := "a" }]
        [{ start := "0", stop := "10", text := "a" }]
        [{ index := 0, start := 0, stop := 10, text := "a", covered := false }]
        [{ index := 0, start := 0, stop := 10, text := "a" }]) := by
    refine (validate_ok_iff _ _ _ (by simp) (by simp)).2 ⟨_, _, hsub, hch, ?_, rfl⟩
    norm_num [totalSubtitleDuration, sortByKey, insertByKey]
  exact ⟨_, hok, c9_advisory_findings_only_warn _ _ _ (by simp) (by simp) hok⟩

end ValidationUtils
